import Mathlib

/-!
Verification development for the pnut chart-data library.

The JavaScript sources are shallowly embedded:
* `src/chartdata/ChartData.js` — the `ChartData` record (rows + column
  metadata), its constructor/sanitization pipeline, column-continuity
  inference, validation helpers, `lerp`, framing, interpolation, and the
  memoized aggregations (memoization is dropped: it does not change values).
* `src/series/GroupedSeries.js` (provided unnamed) — the grouped-series
  builder.
* `src/process/normalizeToPercentage.js` — the percentage-normalization
  pipeline step.  Its in-place mutation of the input series' `preprocess`
  object is made explicit by returning the mutated input next to the result.
* `Series` (its source file is not part of the provided sources, only its
  tests) is modelled from the spec where marked.

JavaScript numbers are modelled as rationals plus an explicit `nan` value;
infinities are not modelled (no claim exercises them).  Strings are opaque:
the implicit JS string/number coercions of `+`, `<` and `isNaN` on
non-numeric strings are collapsed to `nan` (resp. `false`) and never reach
any theorem below.  Fallible operations return `Option`; an operation that
can throw returns `Except Unit`.
-/

/-!
Lean's built-in `Rat` arithmetic is `@[extern]` and does not reduce
inside the kernel, which would make the embedding impossible to evaluate
on concrete inputs.  The embedding therefore computes through
`Rat.divInt`, which does reduce; the `rat*_eq` lemmas below identify
these operations with the standard ones, so algebraic reasoning is
unaffected.
-/

/-- Reducible rational addition. -/
def ratAdd (a b : ℚ) : ℚ :=
  Rat.divInt (a.num * (b.den : ℤ) + b.num * (a.den : ℤ)) ((a.den : ℤ) * (b.den : ℤ))

/-- Reducible rational subtraction. -/
def ratSub (a b : ℚ) : ℚ :=
  Rat.divInt (a.num * (b.den : ℤ) - b.num * (a.den : ℤ)) ((a.den : ℤ) * (b.den : ℤ))

/-- Reducible rational multiplication. -/
def ratMul (a b : ℚ) : ℚ :=
  Rat.divInt (a.num * b.num) ((a.den : ℤ) * (b.den : ℤ))

/-- Reducible rational division. -/
def ratDiv (a b : ℚ) : ℚ :=
  Rat.divInt (a.num * (b.den : ℤ)) ((a.den : ℤ) * b.num)

/-- Reducible rational negation. -/
def ratNeg (a : ℚ) : ℚ := Rat.divInt (-a.num) (a.den : ℤ)

/-- Reducible binary minimum. -/
def ratMin (a b : ℚ) : ℚ := if a ≤ b then a else b

/-- Reducible binary maximum. -/
def ratMax (a b : ℚ) : ℚ := if a ≤ b then b else a

/-- A JavaScript runtime value as far as this library can observe it:
a (finite) number, `NaN`, a string, `null`, `undefined`, a boolean, or any
other object (all objects are collapsed into `other`, which `ChartData`
sanitizes away and the series layer treats as an opaque truthy value). -/
inductive JSValue where
  | num (q : ℚ)
  | nan
  | str (s : String)
  | null
  | undef
  | bool (b : Bool)
  | other
  deriving DecidableEq, Repr

namespace JSValue

/-- JavaScript truthiness (`Boolean(v)`).  `other` stands for objects,
which are always truthy. -/
def truthy : JSValue → Bool
  | num q => q != 0
  | nan => false
  | str s => s != ""
  | null => false
  | undef => false
  | bool b => b
  | other => true

/-- Loose equality with `null` (`v == null`), true exactly for `null`
and `undefined`. -/
def isNullish : JSValue → Bool
  | null => true
  | undef => true
  | _ => false

/-- Whether `typeof v === "number"`; note `NaN` is a number. -/
def isNumberT : JSValue → Bool
  | num _ => true
  | nan => true
  | _ => false

/-- String conversion `String(v)`.  Integral numbers print like JS; the
non-integral and `other` cases are representative stand-ins (no claim
depends on their exact spelling, only on when two values collide). -/
def jsString : JSValue → String
  | num q => if q.den = 1 then toString q.num else toString q
  | nan => "NaN"
  | str s => s
  | null => "null"
  | undef => "undefined"
  | bool b => if b then "true" else "false"
  | other => "[object Object]"

/-- JavaScript `a + b` restricted to numbers: `NaN` is absorbing and any
non-number operand is collapsed to `nan` (the string-concatenation result
JS would produce is never consumed numerically by the embedded code). -/
def jsAdd : JSValue → JSValue → JSValue
  | num a, num b => num (ratAdd a b)
  | _, _ => nan

/-- JavaScript `a / b` restricted to numbers; division by zero is
collapsed to `nan` (JS gives `NaN` for `0/0` and infinities otherwise;
no embedded claim observes the difference). -/
def jsDiv : JSValue → JSValue → JSValue
  | num a, num b => if b = 0 then nan else num (ratDiv a b)
  | _, _ => nan

/-- JavaScript `a || b`. -/
def jsOr (a b : JSValue) : JSValue := if a.truthy then a else b

/-- JavaScript `a > b` for same-typed numbers and strings; mixed-type
coercing comparisons are collapsed to `false` (no claim exercises them). -/
def jsGT : JSValue → JSValue → Bool
  | num a, num b => a > b
  | str a, str b => b < a
  | _, _ => false

/-- JavaScript `a < b`, same scope as `jsGT`. -/
def jsLT : JSValue → JSValue → Bool
  | num a, num b => a < b
  | str a, str b => a < b
  | _, _ => false

/-- Global `isNaN(v)` (numeric coercion then NaN-test) for the values the
embedded aggregations can produce: numbers, `NaN` and `undefined`; `null`
coerces to `0` so `isNaN(null)` is `false`.  Strings and objects are
never produced by the modelled operations and are collapsed to `true`. -/
def isNaNjs : JSValue → Bool
  | num _ => false
  | nan => true
  | null => false
  | undef => true
  | bool _ => false
  | str _ => true
  | other => true

end JSValue

/-- Floor of a rational as an integer, `Math.floor`. -/
def jsFloor (q : ℚ) : ℤ := q.num.fdiv q.den

/-- Ceiling of a rational as an integer, `Math.ceil`. -/
def jsCeil (q : ℚ) : ℤ := -(jsFloor (ratNeg q))

/-- Rounding per `Math.round` (half away from zero rounds up; only its
fixed points matter to the embedded code, which uses it to test
integrality). -/
def jsRound (q : ℚ) : ℤ := jsFloor (ratAdd q (mkRat 1 2))

/-- Lookup in an insertion-ordered map represented as an association
list (first matching key wins; construction keeps keys distinct). -/
def mapGet {κ α : Type} [DecidableEq κ] (m : List (κ × α)) (k : κ) : Option α :=
  (m.find? (fun kv => kv.1 = k)).map (fun kv => kv.2)

/-- `Map.set` of Immutable.js / ES2015 `Map`: an existing key keeps its
position and gets the new value, a new key is appended. -/
def mapSet {κ α : Type} [DecidableEq κ] (m : List (κ × α)) (k : κ) (v : α) :
    List (κ × α) :=
  if m.any (fun kv => kv.1 = k) then
    m.map (fun kv => if kv.1 = k then (k, v) else kv)
  else m ++ [(k, v)]

/-- Distinct elements of a list in order of first appearance
(`toOrderedSet().toList()`, and the key order of `groupBy`). -/
def firstDedup {β : Type} [DecidableEq β] (l : List β) : List β :=
  l.foldl (fun acc b => if acc.contains b then acc else acc ++ [b]) []

/-- Immutable.js `groupBy` on an ordered collection: groups keyed by
`f`, keys in first-appearance order, members in original order. -/
def groupByJS {α β : Type} [DecidableEq β] (f : α → β) (l : List α) :
    List (β × List α) :=
  (firstDedup (l.map f)).map (fun k => (k, l.filter (fun a => f a = k)))

/-- A chart row: an insertion-ordered map from column key to cell value.
Rows produced by the `ChartData` constructor have distinct keys and
sanitized cells, but the type also covers raw, unsanitized input rows. -/
abbrev ChartRow := List (String × JSValue)

/-- Reading a key from a row (`row.get(key)`), `undefined` when absent. -/
def rowGet (r : ChartRow) (k : String) : JSValue :=
  (mapGet r k).getD .undef

namespace ChartData

/-- Check from `ChartData.isValueValid`: the cell domain is strings,
numbers and `null`. -/
def isValueValid : JSValue → Bool
  | .str _ => true
  | .num _ => true
  | .nan => true
  | .null => true
  | _ => false

/-- Cell sanitization applied by the constructor: a valid cell is kept,
anything else becomes `null`. -/
def sanitizeCell (v : JSValue) : JSValue := if isValueValid v then v else .null

/-- Check from `ChartData.isValueContinuous`: `typeof value === "number"`. -/
def isValueContinuous : JSValue → Bool
  | .num _ => true
  | .nan => true
  | _ => false

end ChartData

/-- Column definition as accepted by the `ChartData` constructor:
`isContinuous` is `none` when the property is absent. -/
structure ChartColumnDefinition where
  key : String
  label : String := ""
  isContinuous : Option Bool := none
  deriving DecidableEq, Repr

/-- The `ChartColumn` record held in `ChartData.columns`. -/
structure ChartColumn where
  key : String
  label : String := ""
  isContinuous : Bool := false
  deriving DecidableEq, Repr

/-- Reading an existing `ChartColumn` back as a constructor argument
(re-construction in `updateRows`/`mapRows`/`frameAtIndex` passes
`this.columns`, whose records carry a boolean `isContinuous`). -/
def ChartColumn.toDefinition (c : ChartColumn) : ChartColumnDefinition :=
  { key := c.key, label := c.label, isContinuous := some c.isContinuous }

/-- The `ChartData` record: sanitized rows plus the ordered column map
(represented as a list of `ChartColumn`s with distinct keys, each stored
under its own `key`). -/
structure ChartData where
  columns : List ChartColumn
  rows : List ChartRow
  deriving DecidableEq, Repr

namespace ChartData

/-- Row sanitization from `ChartData._createRows`: each raw row becomes a
map (`Map(row)`, modelled by `mapSet`-folding, which keeps first-key
positions) whose cells are kept if valid and replaced by `null` otherwise. -/
def createRows (raws : List ChartRow) : List ChartRow :=
  raws.map (fun r =>
    (r.foldl (fun m kv => mapSet m kv.1 kv.2) []).map
      (fun kv => (kv.1, sanitizeCell kv.2)))

/-- Continuity completion from `ChartData._addContinuous`: a truthy
declared `isContinuous` is kept unchanged; otherwise the column is
classified by the first row holding a non-nullish value at that key
(`rows.find(...)` with an empty-map fallback whose `get` is `undefined`). -/
def addContinuous (col : ChartColumnDefinition) (rows : List ChartRow) :
    ChartColumnDefinition :=
  if col.isContinuous = some true then col
  else
    { col with isContinuous := some (
        match rows.find? (fun row => !(rowGet row col.key).isNullish) with
        | some row => isValueContinuous (rowGet row col.key)
        | none => isValueContinuous .undef) }

/-- Building one `ChartColumn` record from a completed definition
(`new Column(...)`; the record defaults `isContinuous` to `false`). -/
def mkColumn (col : ChartColumnDefinition) : ChartColumn :=
  { key := col.key, label := col.label,
    isContinuous := col.isContinuous.getD false }

/-- Insertion into the ordered column map (`OrderedMap.set` keyed by the
column `key`): an existing key is overwritten in place, a new one is
appended. -/
def colsSet (cols : List ChartColumn) (c : ChartColumn) : List ChartColumn :=
  if cols.any (fun x => x.key = c.key) then
    cols.map (fun x => if x.key = c.key then c else x)
  else cols ++ [c]

/-- Column construction from `ChartData._createColumns`. -/
def createColumns (defs : List ChartColumnDefinition) (rows : List ChartRow) :
    List ChartColumn :=
  defs.foldl (fun cols col => colsSet cols (mkColumn (addContinuous col rows))) []

/-- The `ChartData` constructor (named `make` because `mk` is taken by
the record's anonymous constructor). -/
def make (raws : List ChartRow) (defs : List ChartColumnDefinition) : ChartData :=
  let rows := createRows raws
  { rows := rows, columns := createColumns defs rows }

/-- Re-construction with an existing column map, as every transforming
method does via `new ChartData(rows, this.columns)`. -/
def reconstruct (raws : List ChartRow) (cols : List ChartColumn) : ChartData :=
  make raws (cols.map ChartColumn.toDefinition)

/-- Membership test behind `ChartData._columnError` (which errors exactly
when `columns.get(column)` is absent). -/
def hasColumn (d : ChartData) (k : String) : Bool :=
  d.columns.any (fun c => c.key = k)

/-- Error predicate `ChartData._columnError`. -/
def columnError (d : ChartData) (k : String) : Bool := !(d.hasColumn k)

/-- Error predicate `ChartData._columnListError`. -/
def columnListError (d : ChartData) (ks : List String) : Bool :=
  ks.any (fun k => d.columnError k)

/-- Error predicate `ChartData._indexError`.  The middle test mirrors the
source's `max && index > max`: a `max` of `0` is falsy and disables the
upper-bound check. -/
def indexError (index : ℚ) (max : Option ℚ) (integer : Bool) : Bool :=
  if index < 0 then true
  else if (match max with
           | some m => decide (m ≠ 0) && decide (index > m)
           | none => false) then true
  else if integer && decide ((jsRound index : ℚ) ≠ index) then true
  else false

/-- Linear interpolation `ChartData.lerp`. -/
def lerp (valueA valueB : JSValue) (blend : ℚ) : JSValue :=
  if blend = 0 then valueA
  else if blend = 1 then valueB
  else if blend < 0 || blend > 1 then .null
  else if valueA.isNullish || valueB.isNullish then .null
  else if !valueA.isNumberT || !valueB.isNumberT then valueA
  else match valueA, valueB with
       | .num a, .num b => .num (ratAdd (ratMul (ratSub b a) blend) a)
       | _, _ => .nan

/-- Query `ChartData.getColumnData`. -/
def getColumnData (d : ChartData) (k : String) : Option (List JSValue) :=
  if d.columnError k then none
  else some (d.rows.map (fun r => rowGet r k))

/-- Query `ChartData.getUniqueValues`. -/
def getUniqueValues (d : ChartData) (k : String) : Option (List JSValue) :=
  if d.columnError k then none
  else some (firstDedup (d.rows.map (fun r => rowGet r k)))

/-- Frame decomposition used by `ChartData.makeFrames` (the groups of
`rows.groupBy(r => r.get(column))`, in key first-appearance order). -/
def framesOf (rows : List ChartRow) (k : String) : List (List ChartRow) :=
  (groupByJS (fun r => rowGet r k) rows).map (fun g => g.2)

/-- Query `ChartData.makeFrames`. -/
def makeFrames (d : ChartData) (k : String) : Option (List (List ChartRow)) :=
  if d.columnError k then none
  else some (framesOf d.rows k)

/-- Query `ChartData.frameAtIndex`.  An index that slips past the broken
upper-bound check reads `frames.get(index)`, whose `undefined` result
makes `List(undefined)`, the empty row list. -/
def frameAtIndex (d : ChartData) (frameColumn : String) (index : ℚ) :
    Option ChartData :=
  if d.columnError frameColumn || indexError index none true then none
  else
    let frames := framesOf d.rows frameColumn
    if indexError index (some (ratSub (frames.length : ℚ) 1)) true then none
    else some (reconstruct ((frames.get? (jsFloor index).toNat).getD []) d.columns)

/-- Helper `getRowFromFrame` of `frameAtIndexInterpolated`: the frame is
already grouped by the primary column; absent or empty groups give
`null`, otherwise the first row of the group. -/
def getRowFromFrame (frame : List (JSValue × List ChartRow)) (pv : JSValue) :
    Option ChartRow :=
  match mapGet frame pv with
  | none => none
  | some l => l.head?

/-- Query `ChartData.frameAtIndexInterpolated`.  `Except.error` marks the
`TypeError` thrown when `frames.get(...)` is `undefined` and `groupBy`
is called on it (reachable because a frame count of 1 makes the
upper-bound check's `max` falsy). -/
def frameAtIndexInterpolated (d : ChartData)
    (frameColumn primaryColumn : String) (index : ℚ) :
    Except Unit (Option ChartData) :=
  if d.columnError frameColumn || d.columnError primaryColumn ||
      indexError index none false then .ok none
  else if frameColumn = primaryColumn then .ok none
  else if (jsRound index : ℚ) = index then .ok (d.frameAtIndex frameColumn index)
  else
    let frames := framesOf d.rows frameColumn
    if indexError index (some (ratSub (frames.length : ℚ) 1)) false then .ok none
    else
      let allPrimaryValues := firstDedup (d.rows.map (fun r => rowGet r primaryColumn))
      let indexA := jsFloor index
      let indexB := jsCeil index
      let blend := ratSub index (indexA : ℚ)
      match frames.get? indexA.toNat, frames.get? indexB.toNat with
      | some fa, some fb =>
          let frameA := groupByJS (fun r => rowGet r primaryColumn) fa
          let frameB := groupByJS (fun r => rowGet r primaryColumn) fb
          let interpolatedFrame :=
            (allPrimaryValues.map (fun pv =>
              match getRowFromFrame frameA pv, getRowFromFrame frameB pv with
              | some rowA, some rowB =>
                  some (d.columns.foldl (fun m c =>
                    mapSet m c.key
                      (if c.isContinuous && c.key ≠ primaryColumn
                       then lerp (rowGet rowA c.key) (rowGet rowB c.key) blend
                       else rowGet rowA c.key)) [])
              | _, _ => none)).filterMap id
          .ok (some (reconstruct interpolatedFrame d.columns))
      | _, _ => .error ()

/-- Union of values of the named columns across all rows, in row order
and per-row entry order (`ChartData._allValuesForColumns`). -/
def allValuesForColumns (d : ChartData) (ks : List String) : List JSValue :=
  d.rows.foldl (fun vals r =>
    vals ++ (r.filter (fun kv => ks.contains kv.1)).map (fun kv => kv.2)) []

/-- Aggregation wrapper `ChartData._aggregation`: a bad column gives
`null`; otherwise the operation runs on the non-nullish values and a
not-a-number result becomes `null`. -/
def aggregation (d : ChartData) (op : List JSValue → JSValue)
    (ks : List String) : JSValue :=
  if d.columnListError ks then .null
  else
    let result := op ((d.allValuesForColumns ks).filter (fun v => !v.isNullish))
    if result.isNaNjs then .null else result

/-- Numeric reading of an aggregation input list: `some` exactly when
every value is a finite number.  The five `immutable-math` operations
below are modelled from that external library for numeric inputs; a list
containing a `NaN` or a string is collapsed to `nan` (JS would produce a
NaN, a concatenated string, or a coerced comparison winner there — no
claim consumes those). -/
def finiteNums (l : List JSValue) : Option (List ℚ) :=
  l.mapM (fun v => match v with | .num q => some q | _ => none)

/-- Modelled `immutable-math` `sum()`: reduce with `+` from `0`. -/
def opSum (l : List JSValue) : JSValue :=
  match finiteNums l with
  | some qs => .num (qs.foldl ratAdd 0)
  | none => .nan

/-- Modelled `immutable-math` `min()` (Immutable's `min`, `undefined` on
an empty collection). -/
def opMin (l : List JSValue) : JSValue :=
  if l.isEmpty then .undef
  else match finiteNums l with
       | some qs => .num (qs.foldl ratMin (qs.headD 0))
       | none => .nan

/-- Modelled `immutable-math` `max()`. -/
def opMax (l : List JSValue) : JSValue :=
  if l.isEmpty then .undef
  else match finiteNums l with
       | some qs => .num (qs.foldl ratMax (qs.headD 0))
       | none => .nan

/-- Modelled `immutable-math` `average()`: sum divided by count (`NaN`
on an empty collection, from `0/0`). -/
def opAverage (l : List JSValue) : JSValue :=
  if l.isEmpty then .nan
  else match finiteNums l with
       | some qs => .num (ratDiv (qs.foldl ratAdd 0) (qs.length : ℚ))
       | none => .nan

/-- Modelled `immutable-math` `median()`: middle of the sorted values,
mean of the middle two for an even count, `NaN` when empty. -/
def opMedian (l : List JSValue) : JSValue :=
  if l.isEmpty then .nan
  else match finiteNums l with
       | some qs =>
          let sorted := qs.insertionSort (fun a b => a ≤ b)
          if qs.length % 2 = 1 then .num (sorted.getD (qs.length / 2) 0)
          else .num (ratDiv (ratAdd (sorted.getD (qs.length / 2 - 1) 0)
                      (sorted.getD (qs.length / 2) 0)) 2)
       | none => .nan

/-- Public `ChartData.min` (the column argument normalized to a list). -/
def min (d : ChartData) (ks : List String) : JSValue := aggregation d opMin ks

/-- Public `ChartData.max`. -/
def max (d : ChartData) (ks : List String) : JSValue := aggregation d opMax ks

/-- Public `ChartData.sum`. -/
def sum (d : ChartData) (ks : List String) : JSValue := aggregation d opSum ks

/-- Public `ChartData.average`. -/
def average (d : ChartData) (ks : List String) : JSValue :=
  aggregation d opAverage ks

/-- Public `ChartData.median`. -/
def median (d : ChartData) (ks : List String) : JSValue :=
  aggregation d opMedian ks

/-- Transform `ChartData.updateRows`. -/
def updateRows (d : ChartData) (updater : List ChartRow → List ChartRow) :
    ChartData :=
  reconstruct (updater d.rows) d.columns

/-- Transform `ChartData.mapRows`. -/
def mapRows (d : ChartData) (mapper : ChartRow → ChartRow) : ChartData :=
  reconstruct (d.rows.map mapper) d.columns

end ChartData

/-- A series point: an insertion-ordered keyed record, as the series
layer treats points (opaque keyed records). -/
abbrev Point := List (String × JSValue)

/-- Object spread `\x7b...a, ...b\x7d`: `a`'s entries in order, overwritten
and extended by `b`'s. -/
def objMerge (a b : Point) : Point :=
  b.foldl (fun m kv => mapSet m kv.1 kv.2) a

/-- Preprocess metadata of a series.  Modelled from the spec: the flags
`stacked`, `stackType` and `normalizeToPercentage` named in §3 and §4.4
travel alongside the series (`Series.js` is not among the provided
sources). -/
structure Preprocess where
  normalizeToPercentage : Bool := false
  stacked : Bool := false
  stackType : Option String := none
  deriving DecidableEq, Repr

/-- Modelled from the spec: the Point Series Model of §4.2 — an ordered
sequence of groups, each an ordered sequence of points, with preprocess
metadata (`Series.js` is not among the provided sources; its behavior is
pinned by `src/series/__test__/Series-test.js`). -/
structure Series (α : Type) where
  groups : List (List α)
  preprocess : Preprocess := {}
  deriving DecidableEq, Repr

namespace Series

/-- Modelled from the spec: `getPoint(i)` returns the cross-group slice
at point-index `i` (the `i`-th point of every group, in group order). -/
def getPoint {α : Type} (s : Series α) (i : ℕ) : List α :=
  s.groups.filterMap (fun g => g.get? i)

/-- Modelled from the spec: `mapPoints(fn)` calls `fn(slice, i)` for each
point-index `i` from 0 to group length − 1 and scatters the returned
per-group values back, so group `j`'s point `i` becomes `result[j]`;
preprocess metadata travels along. -/
def mapPoints {α : Type} (s : Series α) (fn : List α → ℕ → List α) : Series α :=
  let n := (s.groups.head?.map List.length).getD 0
  let results := (List.range n).map (fun i => fn (s.getPoint i) i)
  { groups := (List.range s.groups.length).map
      (fun j => results.filterMap (fun r => r.get? j)),
    preprocess := s.preprocess }

end Series

/-- Configuration of the `GroupedSeries` constructor.  `groupKey` is the
already-normalized list (`[].concat(config.groupKey)`), `pointSort` is
`none` when the default three-way comparator on the `pointKey` value is
to be used. -/
structure GSConfig where
  groupKey : List String
  pointKey : String
  pointSort : Option (Point → Point → ℤ) := none
  data : List Point
  defaultPoint : Point := []

/-- Default `pointSort` comparator of `GroupedSeries`: three-way
comparison of the `pointKey` values with JS `>` and `<`. -/
def defaultPointSort (pointKey : String) (a b : Point) : ℤ :=
  if (rowGet a pointKey).jsGT (rowGet b pointKey) then 1
  else if (rowGet a pointKey).jsLT (rowGet b pointKey) then -1
  else 0

/-- JavaScript `Array.prototype.sort(cmp)`: a stable sort placing `x`
before `y` whenever `cmp x y ≤ 0` (modelled by insertion sort, which is
stable and reduces in the kernel). -/
def jsSortWith {α : Type} (cmp : α → α → ℤ) (l : List α) : List α :=
  l.insertionSort (fun a b => cmp a b ≤ 0)

/-- Key of a record in the `groupKey` partition: the concatenation (from
the empty string) of the stringified `groupKey` field values
(`groupKey.reduce((acc, key) => acc + item[key], '')`). -/
def concatGroupKey (groupKey : List String) (item : Point) : String :=
  groupKey.foldl (fun acc k => acc ++ (rowGet item k).jsString) ""

/-- Canonical point map of `GroupedSeries`: `baseGroup`, built by
`baseGroup.set(String(pointValue), \x7b[pointKey]: pointValue\x7d)` over all
data, so keys are stringified `pointKey` values in first-appearance
order and each value records the last raw value seen for that key. -/
def baseGroupOf (pointKey : String) (data : List Point) :
    List (String × Point) :=
  data.foldl (fun m item =>
    mapSet m (rowGet item pointKey).jsString [(pointKey, rowGet item pointKey)]) []

/-- Shared group-key values of one group: for each `groupKey` field, the
value of the first record in the group for which it is truthy
(`group.find(ii => ii[key])?.[key]`), `undefined` when none is. -/
def baseValuesOf (groupKey : List String) (group : List Point) : Point :=
  groupKey.foldl (fun m k =>
    mapSet m k (match group.find? (fun ii => (rowGet ii k).truthy) with
                | some ii => rowGet ii k
                | none => .undef)) []

/-- Synthesized point map of one group, before sorting: the canonical
map seeded with `\x7b...defaultPoint, ...baseValues, ...value\x7d` and then
overwritten at each record's stringified `pointKey` with
`\x7b...defaultPoint, ...item\x7d`. -/
def groupPointMap (cfg : GSConfig) (group : List Point) :
    List (String × Point) :=
  let baseValues := baseValuesOf cfg.groupKey group
  let groupMap := (baseGroupOf cfg.pointKey cfg.data).map
    (fun kv => (kv.1, objMerge (objMerge cfg.defaultPoint baseValues) kv.2))
  group.foldl (fun m item =>
    mapSet m (rowGet item cfg.pointKey).jsString
      (objMerge cfg.defaultPoint item)) groupMap

/-- The `GroupedSeries` constructor; `none` models the thrown
`'pointKey cannot be used as a groupKey.'`.  The partition of the data
into groups follows object-key insertion order (the JS reordering of
integer-like object keys is not modelled; no claim depends on group
order). -/
def mkGroupedSeries (cfg : GSConfig) : Option (Series Point) :=
  if cfg.groupKey.contains cfg.pointKey then none
  else
    let cmp := cfg.pointSort.getD (defaultPointSort cfg.pointKey)
    let groupedItems := groupByJS (concatGroupKey cfg.groupKey) cfg.data
    some { groups := groupedItems.map (fun kg =>
             jsSortWith cmp ((groupPointMap cfg kg.2).map (fun kv => kv.2))) }

/-- Per-slice transformation of `normalizeToPercentage`: total of the
key's values across the slice (missing or falsy contributing 0), then
each point annotated with `originalValue` and `percentValue` and its
key replaced by the cumulative running share `sum / total`. -/
def normalizeSlice (key : String) (points : List Point) : List Point :=
  let total := points.foldl
    (fun (rr : JSValue) pt => rr.jsAdd ((rowGet pt key).jsOr (.num 0))) (.num 0)
  (points.foldl (fun (st : JSValue × List Point) pt =>
    let next0 := mapSet pt "originalValue" (rowGet pt key)
    let next1 := mapSet next0 "percentValue"
      (((rowGet pt key).jsOr (.num 0)).jsDiv total)
    let nextSum := st.1.jsAdd ((rowGet pt key).jsOr (.num 0))
    (nextSum, st.2 ++ [mapSet next1 key (nextSum.jsDiv total)]))
    ((.num 0), [])).2

/-- The pipeline step `normalizeToPercentage(config)(series)`.  The JS
function first assigns `series.preprocess.normalizeToPercentage = true`,
`series.preprocess.stacked = true` and
`series.preprocess.stackType = 'points'` on its input and then maps the
points of that (mutated) series; the pair returned here makes the
mutation explicit: first the input as the caller sees it afterwards,
second the returned series. -/
def normalizeToPercentage (key : String) (series : Series Point) :
    Series Point × Series Point :=
  let mutated : Series Point :=
    { series with preprocess :=
        { normalizeToPercentage := true, stacked := true,
          stackType := some "points" } }
  (mutated, mutated.mapPoints (fun pts _ => normalizeSlice key pts))

/-- Projection of an interpolation result onto its rows (`none` for a
thrown error or a `null` return). -/
def interpRowsOf (r : Except Unit (Option ChartData)) : Option (List ChartRow) :=
  match r with
  | .ok (some d) => some d.rows
  | _ => none

/-- Whether an interpolation result is a thrown exception. -/
def isThrown (r : Except Unit (Option ChartData)) : Bool :=
  match r with
  | .error _ => true
  | _ => false

/-- Invariant of claim C10: every cell of every row of the store is a
valid chart scalar (string, number or null). -/
def validCells (d : ChartData) : Prop :=
  ∀ r ∈ d.rows, ∀ kv ∈ r, ChartData.isValueValid kv.2 = true

/-! ### The reducible rational operations agree with the standard ones -/

theorem num_eq_mul_den (a : ℚ) : (a.num : ℚ) = a * (a.den : ℚ) := by
  have ha : ((a.den : ℚ)) ≠ 0 := Nat.cast_ne_zero.mpr a.den_nz
  rw [eq_comm, ← eq_div_iff ha]
  exact (Rat.num_div_den a).symm

theorem ratAdd_eq (a b : ℚ) : ratAdd a b = a + b := by
  have ha : ((a.den : ℚ)) ≠ 0 := Nat.cast_ne_zero.mpr a.den_nz
  have hb : ((b.den : ℚ)) ≠ 0 := Nat.cast_ne_zero.mpr b.den_nz
  unfold ratAdd
  rw [Rat.divInt_eq_div]
  push_cast
  rw [div_eq_iff (mul_ne_zero ha hb), num_eq_mul_den a, num_eq_mul_den b]
  ring

theorem ratSub_eq (a b : ℚ) : ratSub a b = a - b := by
  have ha : ((a.den : ℚ)) ≠ 0 := Nat.cast_ne_zero.mpr a.den_nz
  have hb : ((b.den : ℚ)) ≠ 0 := Nat.cast_ne_zero.mpr b.den_nz
  unfold ratSub
  rw [Rat.divInt_eq_div]
  push_cast
  rw [div_eq_iff (mul_ne_zero ha hb), num_eq_mul_den a, num_eq_mul_den b]
  ring

theorem ratMul_eq (a b : ℚ) : ratMul a b = a * b := by
  have ha : ((a.den : ℚ)) ≠ 0 := Nat.cast_ne_zero.mpr a.den_nz
  have hb : ((b.den : ℚ)) ≠ 0 := Nat.cast_ne_zero.mpr b.den_nz
  unfold ratMul
  rw [Rat.divInt_eq_div]
  push_cast
  rw [div_eq_iff (mul_ne_zero ha hb), num_eq_mul_den a, num_eq_mul_den b]
  ring

theorem ratNeg_eq (a : ℚ) : ratNeg a = -a := by
  have ha : ((a.den : ℚ)) ≠ 0 := Nat.cast_ne_zero.mpr a.den_nz
  unfold ratNeg
  rw [Rat.divInt_eq_div]
  push_cast
  rw [div_eq_iff ha, num_eq_mul_den a]
  ring

theorem ratDiv_eq (a b : ℚ) (hb : b ≠ 0) : ratDiv a b = a / b := by
  have ha : ((a.den : ℚ)) ≠ 0 := Nat.cast_ne_zero.mpr a.den_nz
  have hbd : ((b.den : ℚ)) ≠ 0 := Nat.cast_ne_zero.mpr b.den_nz
  have hbn : ((b.num : ℚ)) ≠ 0 := by
    rw [num_eq_mul_den b]
    exact mul_ne_zero hb hbd
  unfold ratDiv
  rw [Rat.divInt_eq_div]
  push_cast
  rw [div_eq_div_iff (mul_ne_zero ha hbn) hb]
  rw [num_eq_mul_den a, num_eq_mul_den b]
  ring

theorem ratMin_eq (a b : ℚ) : ratMin a b = min a b := (min_def a b).symm

theorem ratMax_eq (a b : ℚ) : ratMax a b = max a b := (max_def a b).symm

theorem mkRat_one_two : (mkRat 1 2 : ℚ) = 1 / 2 := by
  rw [Rat.mkRat_eq_div]
  norm_num

theorem jsFloor_eq_floor (q : ℚ) : jsFloor q = ⌊q⌋ := by
  unfold jsFloor
  rw [Rat.floor_def]
  exact Int.fdiv_eq_ediv q.num (by positivity)

theorem jsCeil_eq_ceil (q : ℚ) : jsCeil q = ⌈q⌉ := by
  unfold jsCeil
  rw [ratNeg_eq, jsFloor_eq_floor, Int.floor_neg, neg_neg]

theorem jsRound_intCast (n : ℤ) : jsRound ((n : ℤ) : ℚ) = n := by
  unfold jsRound
  rw [ratAdd_eq, mkRat_one_two, jsFloor_eq_floor]
  have hc : ((n : ℤ) : ℚ) + 1 / 2 = 1 / 2 + ((n : ℤ) : ℚ) := by ring
  rw [hc, Int.floor_add_int]
  norm_num

theorem jsCeil_of_not_int (q : ℚ) (h : ((⌊q⌋ : ℤ) : ℚ) ≠ q) :
    jsCeil q = jsFloor q + 1 := by
  rw [jsCeil_eq_ceil, jsFloor_eq_floor]
  have h1 : (⌊q⌋ : ℚ) < q := lt_of_le_of_ne (Int.floor_le q) h
  rw [Int.ceil_eq_iff]
  constructor
  · push_cast
    simpa using h1
  · push_cast
    have h2 := Int.lt_floor_add_one q
    linarith

theorem floor_ne_of_round_ne (q : ℚ) (h : ((jsRound q : ℤ) : ℚ) ≠ q) :
    ((⌊q⌋ : ℤ) : ℚ) ≠ q := by
  intro hfl
  apply h
  have : q = ((⌊q⌋ : ℤ) : ℚ) := hfl.symm
  rw [this, jsRound_intCast]

/-! ### Lemmas about the ordered-map primitives -/

theorem contains_eq_decide_mem {β : Type} [DecidableEq β] (l : List β) (b : β) :
    l.contains b = decide (b ∈ l) := by
  simp only [List.contains, List.elem_eq_mem]

theorem any_key_eq_decide {κ α : Type} [DecidableEq κ] (m : List (κ × α)) (k : κ) :
    m.any (fun kv => kv.1 = k) = decide (k ∈ m.map Prod.fst) := by
  induction m with
  | nil => rfl
  | cons kv t ih =>
    simp only [List.any_cons, ih, List.map_cons, List.mem_cons]
    by_cases h : kv.1 = k
    · subst h; simp
    · by_cases h2 : k ∈ t.map Prod.fst <;> simp [h, h2, Ne.symm h]

theorem mapSet_map_fst {κ α : Type} [DecidableEq κ] (m : List (κ × α)) (k : κ) (v : α) :
    (mapSet m k v).map Prod.fst =
      if k ∈ m.map Prod.fst then m.map Prod.fst else m.map Prod.fst ++ [k] := by
  unfold mapSet
  by_cases h : k ∈ m.map Prod.fst
  · have ha : m.any (fun kv => kv.1 = k) = true := by
      rw [any_key_eq_decide]; exact decide_eq_true h
    simp only [ha, if_true, h, List.map_map]
    apply List.map_congr_left
    intro kv _
    by_cases hk : kv.1 = k
    · simp [hk]
    · simp [hk]
  · have ha : m.any (fun kv => kv.1 = k) = false := by
      rw [any_key_eq_decide]; exact decide_eq_false h
    simp [ha, h]

theorem find?_map_overwrite {κ α : Type} [DecidableEq κ] (m : List (κ × α))
    (k q : κ) (v : α) (h : q ≠ k) :
    List.find? (fun kv => kv.1 = q) (m.map (fun kv => if kv.1 = k then (k, v) else kv)) =
      List.find? (fun kv => kv.1 = q) m := by
  have hkq : decide ((k, v).1 = q) = false :=
    decide_eq_false (fun hq2 => h hq2.symm)
  induction m with
  | nil => rfl
  | cons x t ih =>
    simp only [List.map_cons]
    by_cases hx : x.1 = k
    · have hxq : decide (x.1 = q) = false := by
        apply decide_eq_false
        intro hq2
        exact h (by rw [← hq2, hx])
      rw [if_pos hx]
      simp only [List.find?_cons, hkq, hxq]
      exact ih
    · rw [if_neg hx]
      by_cases hq : x.1 = q
      · have hq2 : decide (x.1 = q) = true := decide_eq_true hq
        simp only [List.find?_cons, hq2]
      · have hq2 : decide (x.1 = q) = false := decide_eq_false hq
        simp only [List.find?_cons, hq2]
        exact ih

theorem mapGet_mapSet_ne {κ α : Type} [DecidableEq κ] (m : List (κ × α))
    (k q : κ) (v : α) (h : q ≠ k) : mapGet (mapSet m k v) q = mapGet m q := by
  unfold mapSet mapGet
  cases hm : m.any (fun kv => kv.1 = k) with
  | true =>
    simp only [if_true]
    rw [find?_map_overwrite m k q v h]
  | false =>
    simp only [Bool.false_eq_true, if_false]
    rw [List.find?_append]
    have hkq : decide ((k, v).1 = q) = false :=
      decide_eq_false (fun hq2 => h hq2.symm)
    have hnone : List.find? (fun kv => kv.1 = q) [(k, v)] = none := by
      simp only [List.find?_cons, hkq]
      rfl
    rw [hnone]
    cases List.find? (fun kv => kv.1 = q) m <;> rfl

theorem mapGet_of_mem_nodup {κ α : Type} [DecidableEq κ] (m : List (κ × α))
    (kv : κ × α) (hmem : kv ∈ m) (hnd : (m.map Prod.fst).Nodup) :
    mapGet m kv.1 = some kv.2 := by
  induction m with
  | nil => cases hmem
  | cons x t ih =>
    simp only [List.map_cons, List.nodup_cons] at hnd
    rcases List.mem_cons.mp hmem with h | h
    · subst h
      unfold mapGet
      simp [List.find?_cons]
    · have hne : ¬ (x.1 = kv.1) := by
        intro he
        exact hnd.1 (he ▸ (List.mem_map.mpr ⟨kv, h, rfl⟩))
      have hne2 : decide (x.1 = kv.1) = false := decide_eq_false hne
      unfold mapGet
      simp only [List.find?_cons, hne2]
      exact ih h hnd.2

theorem mem_of_mapGet_eq_some {κ α : Type} [DecidableEq κ] (m : List (κ × α))
    (k : κ) (v : α) (h : mapGet m k = some v) : (k, v) ∈ m := by
  unfold mapGet at h
  cases hf : m.find? (fun kv => kv.1 = k) with
  | none => rw [hf] at h; cases h
  | some kv =>
    rw [hf] at h
    have hk : kv.1 = k := by simpa using List.find?_some hf
    have hv : kv.2 = v := by simpa using h
    have hm := List.mem_of_find?_eq_some hf
    rw [← hk, ← hv]
    simpa using hm

theorem contains_iff {β : Type} [DecidableEq β] (l : List β) (b : β) :
    l.contains b = true ↔ b ∈ l := by
  simp [List.contains, List.elem_eq_mem]

theorem dedupGo_mem {β : Type} [DecidableEq β] (l : List β) :
    ∀ (acc : List β) (b : β),
      b ∈ l.foldl (fun acc x => if acc.contains x then acc else acc ++ [x]) acc ↔
        b ∈ acc ∨ b ∈ l := by
  induction l with
  | nil => intro acc b; simp
  | cons x t ih =>
    intro acc b
    simp only [List.foldl_cons]
    rw [ih]
    by_cases hx : acc.contains x = true
    · rw [if_pos hx]
      have hxm : x ∈ acc := (contains_iff acc x).mp hx
      simp only [List.mem_cons]
      constructor
      · rintro (h | h)
        · exact Or.inl h
        · exact Or.inr (Or.inr h)
      · rintro (h | h | h)
        · exact Or.inl h
        · exact Or.inl (h ▸ hxm)
        · exact Or.inr h
    · rw [if_neg hx]
      simp only [List.mem_append, List.mem_singleton, List.mem_cons]
      tauto

theorem dedupGo_nodup {β : Type} [DecidableEq β] (l : List β) :
    ∀ (acc : List β), acc.Nodup →
      (l.foldl (fun acc x => if acc.contains x then acc else acc ++ [x]) acc).Nodup := by
  induction l with
  | nil => intro acc h; exact h
  | cons x t ih =>
    intro acc hacc
    simp only [List.foldl_cons]
    by_cases hx : acc.contains x = true
    · rw [if_pos hx]; exact ih acc hacc
    · rw [if_neg hx]
      apply ih
      have hxm : x ∉ acc := fun hm => hx ((contains_iff acc x).mpr hm)
      simp [List.nodup_append, hacc, hxm]

theorem firstDedup_mem {β : Type} [DecidableEq β] (l : List β) (b : β) :
    b ∈ firstDedup l ↔ b ∈ l := by
  unfold firstDedup
  rw [dedupGo_mem]
  simp

theorem firstDedup_nodup {β : Type} [DecidableEq β] (l : List β) :
    (firstDedup l).Nodup := by
  unfold firstDedup
  exact dedupGo_nodup l [] List.nodup_nil

theorem foldl_mapSet_map_fst {κ α β : Type} [DecidableEq κ]
    (key : β → κ) (val : β → α) (l : List β) :
    ∀ m0 : List (κ × α),
      (l.foldl (fun m b => mapSet m (key b) (val b)) m0).map Prod.fst =
        l.foldl (fun acc b => if acc.contains (key b) then acc else acc ++ [key b])
          (m0.map Prod.fst) := by
  induction l with
  | nil => intro m0; rfl
  | cons b t ih =>
    intro m0
    simp only [List.foldl_cons]
    rw [ih, mapSet_map_fst]
    by_cases h : key b ∈ m0.map Prod.fst
    · rw [if_pos h, if_pos ((contains_iff _ _).mpr h)]
    · rw [if_neg h, if_neg (fun hc => h ((contains_iff _ _).mp hc))]

theorem foldl_mapSet_keys_firstDedup {κ α β : Type} [DecidableEq κ]
    (key : β → κ) (val : β → α) (l : List β) :
    (l.foldl (fun m b => mapSet m (key b) (val b)) []).map Prod.fst =
      firstDedup (l.map key) := by
  rw [foldl_mapSet_map_fst]
  unfold firstDedup
  rw [List.foldl_map]
  rfl

theorem foldl_mapSet_keys_nodup {κ α β : Type} [DecidableEq κ]
    (key : β → κ) (val : β → α) (l : List β) :
    ((l.foldl (fun m b => mapSet m (key b) (val b)) []).map Prod.fst).Nodup := by
  rw [foldl_mapSet_keys_firstDedup]
  exact firstDedup_nodup _

theorem foldl_mapSet_fresh {κ α β : Type} [DecidableEq κ]
    (key : β → κ) (val : β → α) :
    ∀ (l : List β) (acc : List (κ × α)),
      (∀ b ∈ l, key b ∉ acc.map Prod.fst) → (l.map key).Nodup →
      l.foldl (fun m b => mapSet m (key b) (val b)) acc =
        acc ++ l.map (fun b => (key b, val b)) := by
  intro l
  induction l with
  | nil => intro acc _ _; simp
  | cons b t ih =>
    intro acc hfresh hnd
    simp only [List.foldl_cons]
    have hb : key b ∉ acc.map Prod.fst := hfresh b (by simp)
    have hany : acc.any (fun kv => kv.1 = key b) = false := by
      rw [any_key_eq_decide]; exact decide_eq_false hb
    have hset : mapSet acc (key b) (val b) = acc ++ [(key b, val b)] := by
      unfold mapSet
      simp [hany]
    rw [hset]
    simp only [List.map_cons, List.nodup_cons] at hnd
    have hfresh2 : ∀ b2 ∈ t, key b2 ∉ (acc ++ [(key b, val b)]).map Prod.fst := by
      intro b2 hb2
      simp only [List.map_append, List.mem_append, List.map_cons, List.map_nil,
        List.mem_singleton]
      rintro (h1 | h2)
      · exact hfresh b2 (by simp [hb2]) h1
      · exact hnd.1 (by rw [← h2]; exact List.mem_map.mpr ⟨b2, hb2, rfl⟩)
    rw [ih (acc ++ [(key b, val b)]) hfresh2 hnd.2]
    simp

theorem foldl_mapSet_eq_self {κ α : Type} [DecidableEq κ] (r : List (κ × α))
    (hnd : (r.map Prod.fst).Nodup) :
    r.foldl (fun m kv => mapSet m kv.1 kv.2) [] = r := by
  have h := foldl_mapSet_fresh Prod.fst Prod.snd r [] (by simp) hnd
  simpa using h

theorem foldl_mapSet_get_of_absent {κ α β : Type} [DecidableEq κ]
    (key : β → κ) (val : β → α) (l : List β) (k : κ)
    (h : ∀ b ∈ l, key b ≠ k) :
    ∀ m0 : List (κ × α),
      mapGet (l.foldl (fun m b => mapSet m (key b) (val b)) m0) k = mapGet m0 k := by
  induction l with
  | nil => intro m0; rfl
  | cons b t ih =>
    intro m0
    simp only [List.foldl_cons]
    rw [ih (fun b2 hb2 => h b2 (by simp [hb2])),
        mapGet_mapSet_ne m0 (key b) k (val b) (fun he => h b (by simp) he.symm)]

theorem any_eq_decide_mem {β : Type} [DecidableEq β] (l : List β) (b : β) :
    l.any (fun x => x = b) = decide (b ∈ l) := by
  induction l with
  | nil => rfl
  | cons x t ih =>
    simp only [List.any_cons, ih, List.mem_cons]
    by_cases h : x = b
    · subst h; simp
    · by_cases h2 : b ∈ t <;> simp [h, h2, Ne.symm h]

namespace ChartData

theorem addContinuous_key (cd : ChartColumnDefinition) (rows : List ChartRow) :
    (addContinuous cd rows).key = cd.key := by
  unfold addContinuous
  split <;> rfl

theorem any_colkey_eq_decide (cols : List ChartColumn) (k : String) :
    cols.any (fun x => x.key = k) = decide (k ∈ cols.map ChartColumn.key) := by
  induction cols with
  | nil => rfl
  | cons c t ih =>
    simp only [List.any_cons, ih, List.map_cons, List.mem_cons]
    by_cases h : c.key = k
    · subst h; simp
    · by_cases h2 : k ∈ t.map ChartColumn.key <;> simp [h, h2, Ne.symm h]

theorem colsSet_map_key (cols : List ChartColumn) (c : ChartColumn) :
    (colsSet cols c).map ChartColumn.key =
      if c.key ∈ cols.map ChartColumn.key then cols.map ChartColumn.key
      else cols.map ChartColumn.key ++ [c.key] := by
  unfold colsSet
  by_cases h : c.key ∈ cols.map ChartColumn.key
  · have ha : cols.any (fun x => x.key = c.key) = true := by
      rw [any_colkey_eq_decide]; exact decide_eq_true h
    simp only [ha, if_true, h, List.map_map]
    apply List.map_congr_left
    intro x _
    by_cases hx : x.key = c.key
    · simp [hx]
    · simp [hx]
  · have ha : cols.any (fun x => x.key = c.key) = false := by
      rw [any_colkey_eq_decide]; exact decide_eq_false h
    simp [ha, h]

theorem foldl_colsSet_keys_nodup (f : ChartColumnDefinition → ChartColumn)
    (defs : List ChartColumnDefinition) :
    ∀ acc : List ChartColumn, (acc.map ChartColumn.key).Nodup →
      ((defs.foldl (fun cols cd => colsSet cols (f cd)) acc).map ChartColumn.key).Nodup := by
  induction defs with
  | nil => intro acc h; exact h
  | cons cd t ih =>
    intro acc hacc
    simp only [List.foldl_cons]
    apply ih
    rw [colsSet_map_key]
    by_cases h : (f cd).key ∈ acc.map ChartColumn.key
    · rw [if_pos h]; exact hacc
    · rw [if_neg h]
      simp [List.nodup_append, hacc, h]

theorem make_columns_keys_nodup (raws : List ChartRow)
    (defs : List ChartColumnDefinition) :
    (((make raws defs).columns).map ChartColumn.key).Nodup := by
  unfold make createColumns
  exact foldl_colsSet_keys_nodup _ defs [] List.nodup_nil

theorem foldl_colsSet_fresh (f : ChartColumnDefinition → ChartColumn)
    (hf : ∀ cd, (f cd).key = cd.key) :
    ∀ (l : List ChartColumnDefinition) (acc : List ChartColumn),
      (∀ cd ∈ l, cd.key ∉ acc.map ChartColumn.key) →
      (l.map (fun cd => cd.key)).Nodup →
      l.foldl (fun cols cd => colsSet cols (f cd)) acc = acc ++ l.map f := by
  intro l
  induction l with
  | nil => intro acc _ _; simp
  | cons cd t ih =>
    intro acc hfresh hnd
    simp only [List.foldl_cons]
    have hb : (f cd).key ∉ acc.map ChartColumn.key := by
      rw [hf cd]; exact hfresh cd (by simp)
    have ha : acc.any (fun x => x.key = (f cd).key) = false := by
      rw [any_colkey_eq_decide]; exact decide_eq_false hb
    have hset : colsSet acc (f cd) = acc ++ [f cd] := by
      unfold colsSet
      simp [ha]
    rw [hset]
    simp only [List.map_cons, List.nodup_cons] at hnd
    have hfresh2 : ∀ cd2 ∈ t, cd2.key ∉ (acc ++ [f cd]).map ChartColumn.key := by
      intro cd2 hcd2
      simp only [List.map_append, List.mem_append, List.map_cons, List.map_nil,
        List.mem_singleton, hf cd]
      rintro (h1 | h2)
      · exact hfresh cd2 (by simp [hcd2]) h1
      · exact hnd.1 (by rw [← h2]; exact List.mem_map.mpr ⟨cd2, hcd2, rfl⟩)
    rw [ih (acc ++ [f cd]) hfresh2 hnd.2]
    simp

theorem createColumns_eq_map (defs : List ChartColumnDefinition)
    (rows : List ChartRow) (hnd : (defs.map (fun cd => cd.key)).Nodup) :
    createColumns defs rows =
      defs.map (fun cd => mkColumn (addContinuous cd rows)) := by
  unfold createColumns
  have h := foldl_colsSet_fresh (fun cd => mkColumn (addContinuous cd rows))
    (fun cd => addContinuous_key cd rows) defs [] (by simp) hnd
  simpa using h

theorem sanitizeCell_valid (v : JSValue) : isValueValid (sanitizeCell v) = true := by
  cases v <;> rfl

theorem sanitizeCell_of_valid (v : JSValue) (h : isValueValid v = true) :
    sanitizeCell v = v := by
  unfold sanitizeCell
  rw [if_pos h]

theorem createRows_keys_nodup (raws : List ChartRow) :
    ∀ r ∈ createRows raws, (r.map Prod.fst).Nodup := by
  intro r hr
  unfold createRows at hr
  obtain ⟨raw, _, hform⟩ := List.mem_map.mp hr
  subst hform
  rw [List.map_map]
  have : (Prod.fst ∘ fun kv : String × JSValue => (kv.1, sanitizeCell kv.2)) =
      Prod.fst := rfl
  rw [this]
  exact foldl_mapSet_keys_nodup Prod.fst Prod.snd raw

theorem createRows_valid (raws : List ChartRow) :
    ∀ r ∈ createRows raws, ∀ kv ∈ r, isValueValid kv.2 = true := by
  intro r hr kv hkv
  unfold createRows at hr
  obtain ⟨raw, _, hform⟩ := List.mem_map.mp hr
  subst hform
  obtain ⟨kv0, _, hkv0⟩ := List.mem_map.mp hkv
  rw [← hkv0]
  exact sanitizeCell_valid kv0.2

theorem make_rows_keys_nodup (raws : List ChartRow)
    (defs : List ChartColumnDefinition) :
    ∀ r ∈ (make raws defs).rows, (r.map Prod.fst).Nodup :=
  createRows_keys_nodup raws

theorem validCells_make (raws : List ChartRow) (defs : List ChartColumnDefinition) :
    validCells (make raws defs) :=
  createRows_valid raws

theorem createRows_of_clean (rows : List ChartRow)
    (hnd : ∀ r ∈ rows, (r.map Prod.fst).Nodup)
    (hv : ∀ r ∈ rows, ∀ kv ∈ r, isValueValid kv.2 = true) :
    createRows rows = rows := by
  unfold createRows
  apply List.map_congr_left ?h |>.trans (List.map_id rows)
  intro r hr
  rw [foldl_mapSet_eq_self r (hnd r hr)]
  apply List.map_congr_left ?h2 |>.trans (List.map_id r)
  intro kv hkv
  rw [sanitizeCell_of_valid kv.2 (hv r hr kv hkv)]
  rfl

end ChartData

/-! ### Claim C1 -/

/-- Claim C1, counterexample: the first store declares column `a` with an
explicit `isContinuous: false`, yet the constructed column has
`isContinuous = true` (the source keeps a declared value only when it is
truthy); the second store's column `a` is inferred continuous although
its values are not all numeric (`"x"` is a non-null non-numeric value),
because inference inspects only the first non-null value. -/
theorem c1_counterexample :
    (ChartData.make [[("a", JSValue.num 1)]]
        [{key := "a", isContinuous := some false}]).columns =
      [{key := "a", isContinuous := true}] ∧
    (ChartData.make [[("a", JSValue.num 1)], [("a", JSValue.str "x")]]
        [{key := "a"}]).columns = [{key := "a", isContinuous := true}] ∧
    ChartData.isValueContinuous (JSValue.str "x") = false := by
  exact ⟨rfl, rfl, rfl⟩

/-- Claim C1, amended: for every `ChartData` constructed from rows and
column definitions with distinct keys, each column's `isContinuous`
equals `true` when the explicitly supplied value is `true`; otherwise
(absent or supplied `false`) it is inferred from the first row holding a
non-null value in that column — `true` exactly when that value is
numeric — and it is `false` when the column has no non-null value in any
row. -/
theorem c1_isContinuous_inference (raws : List ChartRow)
    (defs : List ChartColumnDefinition)
    (hnd : (defs.map (fun cd => cd.key)).Nodup)
    (cd : ChartColumnDefinition) (hcd : cd ∈ defs) :
    ∃ c ∈ (ChartData.make raws defs).columns, c.key = cd.key ∧
      c.isContinuous =
        (if cd.isContinuous = some true then true
         else
           match (ChartData.make raws defs).rows.find?
               (fun row => !(rowGet row cd.key).isNullish) with
           | some row => ChartData.isValueContinuous (rowGet row cd.key)
           | none => false) := by
  have hcols : (ChartData.make raws defs).columns =
      defs.map (fun cd => ChartData.mkColumn
        (ChartData.addContinuous cd (ChartData.createRows raws))) :=
    ChartData.createColumns_eq_map defs (ChartData.createRows raws) hnd
  refine ⟨ChartData.mkColumn
    (ChartData.addContinuous cd (ChartData.createRows raws)), ?_, ?_, ?_⟩
  · rw [hcols]
    exact List.mem_map.mpr ⟨cd, hcd, rfl⟩
  · show (ChartData.addContinuous cd (ChartData.createRows raws)).key = cd.key
    exact ChartData.addContinuous_key cd _
  · show (ChartData.addContinuous cd (ChartData.createRows raws)).isContinuous.getD
      false = _
    unfold ChartData.addContinuous
    by_cases h : cd.isContinuous = some true
    · rw [if_pos h, if_pos h, h]
      rfl
    · rw [if_neg h, if_neg h]
      have hrows : (ChartData.make raws defs).rows = ChartData.createRows raws := rfl
      rw [hrows]
      cases hfind : (ChartData.createRows raws).find?
          (fun row => !(rowGet row cd.key).isNullish) with
      | none => simp only [hfind, Option.getD_some]; rfl
      | some row => simp only [hfind, Option.getD_some]

/-- Claim C1, witness: applying the amended theorem to a concrete store
whose only column lacks an explicit `isContinuous` and holds the numeric
value 1. -/
theorem c1_witness :
    ({ key := "a", label := "", isContinuous := true } : ChartColumn) ∈
      (ChartData.make [[("a", JSValue.num 1)]] [{key := "a"}]).columns := by
  obtain ⟨c, hc, hk, hv⟩ := c1_isContinuous_inference [[("a", JSValue.num 1)]]
    [{key := "a"}] (by decide) {key := "a"} (by simp)
  have hcols : (ChartData.make [[("a", JSValue.num 1)]] [{key := "a"}]).columns =
      [{ key := "a", label := "", isContinuous := true }] := rfl
  rw [hcols] at hc
  rw [List.mem_singleton] at hc
  rw [hcols, ← hc]
  exact List.mem_singleton.mpr rfl

/-! ### Claim C2 -/

/-- Claim C2, demonstrated code bug: a store with exactly one frame
(`frames.size - 1 = 0` makes the guard `max && index > max` falsy).
`frameAtIndex("day", 1)` has an index equal to the frame count, yet
returns a store (with empty rows) instead of `null`; and
`frameAtIndexInterpolated("day", "v", 3/2)` throws a `TypeError`
(`frames.get(2)` is `undefined`) instead of surfacing the index-range
condition. -/
theorem c2_index_bounds_bug :
    ((ChartData.make [[("day", JSValue.num 1), ("v", JSValue.num 2)]]
        [{key := "day"}, {key := "v"}]).frameAtIndex "day" 1).isSome = true ∧
    ((ChartData.make [[("day", JSValue.num 1), ("v", JSValue.num 2)]]
        [{key := "day"}, {key := "v"}]).frameAtIndex "day" 1).map
      ChartData.rows = some [] ∧
    ((ChartData.make [[("day", JSValue.num 1), ("v", JSValue.num 2)]]
        [{key := "day"}, {key := "v"}]).makeFrames "day").map List.length =
      some 1 ∧
    isThrown ((ChartData.make [[("day", JSValue.num 1), ("v", JSValue.num 2)]]
        [{key := "day"}, {key := "v"}]).frameAtIndexInterpolated "day" "v"
      (mkRat 3 2)) = true := by
  refine ⟨by decide, by decide, by decide, by decide⟩

/-! ### Claim C4 -/

/-- Claim C4: `ChartData.lerp` follows its clauses in order — `t = 0`
returns `x`; `t = 1` returns `y`; `t` outside `[0,1]` surfaces the
invalid-argument condition (a diagnostic plus a `null` return); a `null`
argument gives `null`; a non-numeric argument gives `x` unchanged; two
numbers give `x + (y − x) * t`, so 0.5 is the arithmetic midpoint. -/
theorem c4_lerp_spec :
    (∀ x y : JSValue, ChartData.lerp x y 0 = x) ∧
    (∀ x y : JSValue, ChartData.lerp x y 1 = y) ∧
    (∀ (x y : JSValue) (t : ℚ), t ≠ 0 → t ≠ 1 → (t < 0 ∨ 1 < t) →
      ChartData.lerp x y t = .null) ∧
    (∀ (x y : JSValue) (t : ℚ), 0 < t → t < 1 → (x = .null ∨ y = .null) →
      ChartData.lerp x y t = .null) ∧
    (∀ (x y : JSValue) (t : ℚ), 0 < t → t < 1 →
      ChartData.isValueValid x = true → ChartData.isValueValid y = true →
      x ≠ .null → y ≠ .null → (x.isNumberT = false ∨ y.isNumberT = false) →
      ChartData.lerp x y t = x) ∧
    (∀ a b t : ℚ, 0 < t → t < 1 →
      ChartData.lerp (.num a) (.num b) t = .num (a + (b - a) * t)) ∧
    (∀ a b : ℚ, ChartData.lerp (.num a) (.num b) (1/2) = .num ((a + b) / 2)) := by
  have hnn : ∀ x : JSValue, ChartData.isValueValid x = true → x ≠ .null →
      x.isNullish = false := by
    intro x hv hx
    cases x <;> simp_all [ChartData.isValueValid, JSValue.isNullish]
  refine ⟨?_, ?_, ?_, ?_, ?_, ?_, ?_⟩
  · intro x y
    unfold ChartData.lerp
    rw [if_pos rfl]
  · intro x y
    unfold ChartData.lerp
    rw [if_neg (by norm_num), if_pos rfl]
  · intro x y t h0 h1 hout
    unfold ChartData.lerp
    rw [if_neg h0, if_neg h1, if_pos ?hc]
    case hc =>
      rcases hout with h | h
      · simp [h]
      · simp [h]
  · intro x y t h0 h1 hnull
    unfold ChartData.lerp
    rw [if_neg (by intro h; rw [h] at h0; exact lt_irrefl 0 h0)]
    rw [if_neg (by intro h; rw [h] at h1; exact lt_irrefl 1 h1)]
    rw [if_neg (by simp [not_lt.mpr (le_of_lt h0), not_lt.mpr (le_of_lt h1)])]
    rw [if_pos (by rcases hnull with h | h <;> simp [h, JSValue.isNullish])]
  · intro x y t h0 h1 hvx hvy hx hy hnum
    unfold ChartData.lerp
    rw [if_neg (by intro h; rw [h] at h0; exact lt_irrefl 0 h0)]
    rw [if_neg (by intro h; rw [h] at h1; exact lt_irrefl 1 h1)]
    rw [if_neg (by simp [not_lt.mpr (le_of_lt h0), not_lt.mpr (le_of_lt h1)])]
    rw [if_neg (by simp [hnn x hvx hx, hnn y hvy hy])]
    rw [if_pos (by rcases hnum with h | h <;> simp [h])]
  · intro a b t h0 h1
    unfold ChartData.lerp
    rw [if_neg (by intro h; rw [h] at h0; exact lt_irrefl 0 h0)]
    rw [if_neg (by intro h; rw [h] at h1; exact lt_irrefl 1 h1)]
    rw [if_neg (by simp [not_lt.mpr (le_of_lt h0), not_lt.mpr (le_of_lt h1)])]
    rw [if_neg (by simp [JSValue.isNullish])]
    rw [if_neg (by simp [JSValue.isNumberT])]
    show JSValue.num (ratAdd (ratMul (ratSub b a) t) a) = JSValue.num (a + (b - a) * t)
    rw [ratSub_eq, ratMul_eq, ratAdd_eq]
    congr 1
    ring
  · intro a b
    unfold ChartData.lerp
    rw [if_neg (by norm_num), if_neg (by norm_num)]
    rw [if_neg (by norm_num)]
    rw [if_neg (by simp [JSValue.isNullish])]
    rw [if_neg (by simp [JSValue.isNumberT])]
    show JSValue.num (ratAdd (ratMul (ratSub b a) (1/2)) a) = JSValue.num ((a + b) / 2)
    rw [ratSub_eq, ratMul_eq, ratAdd_eq]
    congr 1
    ring

/-- Claim C4, witness: the interpolation clause at concrete numbers,
`lerp(10, 20, 1/2)`. -/
theorem c4_lerp_witness :
    ChartData.lerp (.num 10) (.num 20) (1/2) =
      .num (10 + (20 - 10) * (1/2)) :=
  c4_lerp_spec.2.2.2.2.2.1 10 20 (1/2) (by norm_num) (by norm_num)

/-! ### Claim C6 -/

/-- Claim C6: for distinct declared columns and an integral index,
`frameAtIndexInterpolated` returns exactly what `frameAtIndex` returns
(for a negative integral index both surface the index-range condition
as `null`). -/
theorem c6_integral_index_delegates (d : ChartData) (f p : String) (i : ℚ)
    (hf : d.hasColumn f = true) (hp : d.hasColumn p = true) (hne : f ≠ p)
    (hint : ((jsRound i : ℤ) : ℚ) = i) :
    d.frameAtIndexInterpolated f p i = .ok (d.frameAtIndex f i) := by
  have hcf : d.columnError f = false := by
    unfold ChartData.columnError
    rw [hf]
    rfl
  have hcp : d.columnError p = false := by
    unfold ChartData.columnError
    rw [hp]
    rfl
  unfold ChartData.frameAtIndexInterpolated
  by_cases hi : i < 0
  · have he : ChartData.indexError i none false = true := by
      unfold ChartData.indexError
      rw [if_pos hi]
    rw [hcf, hcp, he]
    have hfa : d.frameAtIndex f i = none := by
      unfold ChartData.frameAtIndex
      have he2 : ChartData.indexError i none true = true := by
        unfold ChartData.indexError
        rw [if_pos hi]
      rw [hcf, he2]
      simp
    rw [hfa]
    simp
  · have he : ChartData.indexError i none false = false := by
      unfold ChartData.indexError
      rw [if_neg hi]
      rfl
    rw [hcf, hcp, he]
    simp only [Bool.or_false, Bool.false_or, Bool.or_self, Bool.false_eq_true,
      if_false]
    rw [if_neg hne, if_pos hint]

/-- Claim C6, witness: the delegation at a concrete store with integral
index 0. -/
theorem c6_witness :
    (ChartData.make [[("day", JSValue.num 1), ("v", JSValue.num 2)]]
        [{key := "day"}, {key := "v"}]).frameAtIndexInterpolated "day" "v" 0 =
      .ok ((ChartData.make [[("day", JSValue.num 1), ("v", JSValue.num 2)]]
        [{key := "day"}, {key := "v"}]).frameAtIndex "day" 0) :=
  c6_integral_index_delegates _ "day" "v" 0 (by decide) (by decide)
    (by decide) (by decide)

/-! ### Claim C9 -/

theorem mapPoints_groups_length {α : Type} (s : Series α)
    (fn : List α → ℕ → List α) :
    (s.mapPoints fn).groups.length = s.groups.length := by
  unfold Series.mapPoints
  simp

/-- Claim C9, counterexample: `normalizeToPercentage` does modify its
input series — the returned mutated input differs from the original,
whose `preprocess.normalizeToPercentage` flag flips from `false` to
`true` (the JS function assigns to `series.preprocess` before mapping). -/
theorem c9_counterexample :
    (normalizeToPercentage "v" { groups := [[[("v", JSValue.num 1)]]] }).1 ≠
      ({ groups := [[[("v", JSValue.num 1)]]] } : Series Point) ∧
    ({ groups := [[[("v", JSValue.num 1)]]] } : Series Point).preprocess.normalizeToPercentage = false ∧
    (normalizeToPercentage "v"
      { groups := [[[("v", JSValue.num 1)]]] }).1.preprocess.normalizeToPercentage = true := by
  refine ⟨by decide, rfl, rfl⟩

/-- Claim C9, amended: the step leaves the input's groups (its data)
unchanged and the result is a fresh series of the same group count
produced by `mapPoints`, but the step does set the input's preprocess
metadata (`normalizeToPercentage`, `stacked`, `stackType = "points"`)
before mapping, and the result carries the same flags. -/
theorem c9_normalize_mutates_only_preprocess (key : String) (s : Series Point) :
    (normalizeToPercentage key s).1.groups = s.groups ∧
    (normalizeToPercentage key s).1.preprocess =
      { normalizeToPercentage := true, stacked := true,
        stackType := some "points" } ∧
    (normalizeToPercentage key s).2 =
      (normalizeToPercentage key s).1.mapPoints
        (fun pts _ => normalizeSlice key pts) ∧
    (normalizeToPercentage key s).2.preprocess =
      { normalizeToPercentage := true, stacked := true,
        stackType := some "points" } ∧
    (normalizeToPercentage key s).2.groups.length = s.groups.length := by
  refine ⟨rfl, rfl, rfl, rfl, ?_⟩
  show ((Series.mapPoints _ _).groups.length) = s.groups.length
  rw [mapPoints_groups_length]

/-! ### Claim C5 -/

theorem foldl_append_eq_flatten {α β : Type} (f : α → List β) (l : List α) :
    ∀ acc : List β,
      l.foldl (fun vals x => vals ++ f x) acc = acc ++ (l.map f).flatten := by
  induction l with
  | nil => intro acc; simp
  | cons x t ih =>
    intro acc
    simp only [List.foldl_cons, List.map_cons, List.flatten_cons]
    rw [ih]
    simp [List.append_assoc]

theorem allValues_nullish_filter_nil (raws : List ChartRow)
    (defs : List ChartColumnDefinition) (k : String)
    (hnull : ∀ r ∈ (ChartData.make raws defs).rows, (rowGet r k).isNullish = true) :
    (((ChartData.make raws defs).allValuesForColumns [k]).filter
      (fun v => !v.isNullish)) = [] := by
  unfold ChartData.allValuesForColumns
  rw [foldl_append_eq_flatten]
  simp only [List.nil_append]
  rw [List.filter_eq_nil_iff]
  intro v hv
  rw [List.mem_flatten] at hv
  obtain ⟨vals, hvals, hvmem⟩ := hv
  obtain ⟨r, hr, hform⟩ := List.mem_map.mp hvals
  subst hform
  obtain ⟨kv, hkv, hkvv⟩ := List.mem_map.mp hvmem
  rw [List.mem_filter] at hkv
  have hk1 : kv.1 = k := by simpa [List.contains, List.elem_eq_mem] using hkv.2
  have hnd := ChartData.make_rows_keys_nodup raws defs r hr
  have hget := mapGet_of_mem_nodup r kv hkv.1 hnd
  have hrg : rowGet r k = kv.2 := by
    unfold rowGet
    rw [← hk1, hget]
    rfl
  have hn := hnull r hr
  rw [hrg] at hn
  rw [← hkvv]
  simp [hn]

theorem aggregation_eq_null_iff (d : ChartData) (op : List JSValue → JSValue)
    (ks : List String) (hop : ∀ l, op l ≠ JSValue.null)
    (hks : d.columnListError ks = false) :
    (d.aggregation op ks = .null ↔
      (op ((d.allValuesForColumns ks).filter
        (fun v => !v.isNullish))).isNaNjs = true) := by
  unfold ChartData.aggregation
  rw [hks]
  simp only [Bool.false_eq_true, if_false]
  by_cases hn : (op ((d.allValuesForColumns ks).filter
      (fun v => !v.isNullish))).isNaNjs = true
  · rw [if_pos hn]
    simp [hn]
  · rw [if_neg hn]
    constructor
    · intro hc
      exact absurd hc (hop _)
    · intro hc
      exact absurd hc hn

theorem opSum_ne_null (l : List JSValue) : ChartData.opSum l ≠ .null := by
  unfold ChartData.opSum
  cases h : ChartData.finiteNums l <;> simp

theorem opMin_ne_null (l : List JSValue) : ChartData.opMin l ≠ .null := by
  unfold ChartData.opMin
  by_cases he : l.isEmpty
  · simp [he]
  · cases h : ChartData.finiteNums l <;> simp [he, h]

theorem opMax_ne_null (l : List JSValue) : ChartData.opMax l ≠ .null := by
  unfold ChartData.opMax
  by_cases he : l.isEmpty
  · simp [he]
  · cases h : ChartData.finiteNums l <;> simp [he, h]

theorem opAverage_ne_null (l : List JSValue) : ChartData.opAverage l ≠ .null := by
  unfold ChartData.opAverage
  by_cases he : l.isEmpty
  · simp [he]
  · cases h : ChartData.finiteNums l <;> simp [he, h]

theorem opMedian_ne_null (l : List JSValue) : ChartData.opMedian l ≠ .null := by
  unfold ChartData.opMedian
  by_cases he : l.isEmpty
  · simp [he]
  · cases h : ChartData.finiteNums l
    · simp [he, h]
    · simp only [he, h, Bool.false_eq_true, if_false]
      split <;> simp

/-- Claim C5: over a declared column whose values are all null or
absent, `sum` returns 0 while `min`, `max`, `average` and `median`
return `null`; and in general each aggregate runs over the non-null
values of the named columns and returns `null` exactly when that
computation is not-a-number. -/
theorem c5_aggregates_all_null (raws : List ChartRow)
    (defs : List ChartColumnDefinition) (k : String)
    (hk : (ChartData.make raws defs).hasColumn k = true)
    (hnull : ∀ r ∈ (ChartData.make raws defs).rows,
      (rowGet r k).isNullish = true) :
    (ChartData.make raws defs).sum [k] = .num 0 ∧
    (ChartData.make raws defs).min [k] = .null ∧
    (ChartData.make raws defs).max [k] = .null ∧
    (ChartData.make raws defs).average [k] = .null ∧
    (ChartData.make raws defs).median [k] = .null ∧
    (∀ ks, (ChartData.make raws defs).columnListError ks = false →
      (((ChartData.make raws defs).min ks = .null) ↔
        (ChartData.opMin (((ChartData.make raws defs).allValuesForColumns ks).filter
          (fun v => !v.isNullish))).isNaNjs = true) ∧
      (((ChartData.make raws defs).max ks = .null) ↔
        (ChartData.opMax (((ChartData.make raws defs).allValuesForColumns ks).filter
          (fun v => !v.isNullish))).isNaNjs = true) ∧
      (((ChartData.make raws defs).sum ks = .null) ↔
        (ChartData.opSum (((ChartData.make raws defs).allValuesForColumns ks).filter
          (fun v => !v.isNullish))).isNaNjs = true) ∧
      (((ChartData.make raws defs).average ks = .null) ↔
        (ChartData.opAverage (((ChartData.make raws defs).allValuesForColumns ks).filter
          (fun v => !v.isNullish))).isNaNjs = true) ∧
      (((ChartData.make raws defs).median ks = .null) ↔
        (ChartData.opMedian (((ChartData.make raws defs).allValuesForColumns ks).filter
          (fun v => !v.isNullish))).isNaNjs = true)) := by
  have hce : (ChartData.make raws defs).columnError k = false := by
    unfold ChartData.columnError
    rw [hk]
    rfl
  have hks1 : (ChartData.make raws defs).columnListError [k] = false := by
    unfold ChartData.columnListError
    simp [hce]
  have hfil := allValues_nullish_filter_nil raws defs k hnull
  refine ⟨?_, ?_, ?_, ?_, ?_, ?_⟩
  · unfold ChartData.sum ChartData.aggregation
    rw [hks1]
    simp only [Bool.false_eq_true, if_false]
    rw [hfil]
    rfl
  · unfold ChartData.min ChartData.aggregation
    rw [hks1]
    simp only [Bool.false_eq_true, if_false]
    rw [hfil]
    rfl
  · unfold ChartData.max ChartData.aggregation
    rw [hks1]
    simp only [Bool.false_eq_true, if_false]
    rw [hfil]
    rfl
  · unfold ChartData.average ChartData.aggregation
    rw [hks1]
    simp only [Bool.false_eq_true, if_false]
    rw [hfil]
    rfl
  · unfold ChartData.median ChartData.aggregation
    rw [hks1]
    simp only [Bool.false_eq_true, if_false]
    rw [hfil]
    rfl
  · intro ks hks
    exact ⟨aggregation_eq_null_iff _ _ ks opMin_ne_null hks,
      aggregation_eq_null_iff _ _ ks opMax_ne_null hks,
      aggregation_eq_null_iff _ _ ks opSum_ne_null hks,
      aggregation_eq_null_iff _ _ ks opAverage_ne_null hks,
      aggregation_eq_null_iff _ _ ks opMedian_ne_null hks⟩

/-- Claim C5, witness: a concrete store whose column `k` is null in one
row and absent in the other. -/
theorem c5_witness :
    (ChartData.make [[("k", JSValue.null)], [("x", JSValue.num 1)]]
      [{key := "k"}, {key := "x"}]).sum ["k"] = .num 0 ∧
    (ChartData.make [[("k", JSValue.null)], [("x", JSValue.num 1)]]
      [{key := "k"}, {key := "x"}]).median ["k"] = .null := by
  have h := c5_aggregates_all_null [[("k", JSValue.null)], [("x", JSValue.num 1)]]
    [{key := "k"}, {key := "x"}] "k" (by decide) (by decide)
  exact ⟨h.1, h.2.2.2.2.1⟩

/-! ### Claim C10 -/

theorem frameAtIndex_validCells (d : ChartData) (f : String) (i : ℚ)
    (s : ChartData) (h : d.frameAtIndex f i = some s) : validCells s := by
  simp only [ChartData.frameAtIndex] at h
  split at h
  · exact absurd h (by simp)
  · split at h
    · exact absurd h (by simp)
    · injection h with h2
      rw [← h2]
      exact ChartData.validCells_make _ _

theorem frameAtIndexInterpolated_validCells (d : ChartData) (f p : String)
    (idx : ℚ) (s : ChartData)
    (h : d.frameAtIndexInterpolated f p idx = .ok (some s)) : validCells s := by
  simp only [ChartData.frameAtIndexInterpolated] at h
  split at h
  · injection h with h2
    exact absurd h2 (by simp)
  · split at h
    · injection h with h2
      exact absurd h2 (by simp)
    · split at h
      · injection h with h2
        exact frameAtIndex_validCells d f idx s h2
      · split at h
        · injection h with h2
          exact absurd h2 (by simp)
        · split at h
          · injection h with h2
            injection h2 with h3
            rw [← h3]
            exact ChartData.validCells_make _ _
          · exact absurd h (by simp)

/-- Claim C10: every store reachable through the public interface has
only valid scalar cells (string, number or null) — the constructor
re-sanitizes rows on every transformation, so even an updater or mapper
that returns rows with non-scalar values yields a store whose invalid
cells became null. -/
theorem c10_cells_always_valid (raws : List ChartRow)
    (defs : List ChartColumnDefinition) (f p : String) (i idx : ℚ)
    (updater : List ChartRow → List ChartRow) (mapper : ChartRow → ChartRow) :
    validCells (ChartData.make raws defs) ∧
    validCells ((ChartData.make raws defs).updateRows updater) ∧
    validCells ((ChartData.make raws defs).mapRows mapper) ∧
    (∀ s, (ChartData.make raws defs).frameAtIndex f i = some s → validCells s) ∧
    (∀ s, (ChartData.make raws defs).frameAtIndexInterpolated f p idx =
        .ok (some s) → validCells s) :=
  ⟨ChartData.validCells_make _ _,
   ChartData.validCells_make _ _,
   ChartData.validCells_make _ _,
   fun s h => frameAtIndex_validCells _ f i s h,
   fun s h => frameAtIndexInterpolated_validCells _ f p idx s h⟩

/-- Claim C10, witness: an updater returning rows with invalid cells
(an object and an `undefined`) still yields a store of valid cells, and
a concrete `frameAtIndex` result is checked cell-valid. -/
theorem c10_witness :
    validCells ((ChartData.make [[("a", JSValue.num 1)]] [{key := "a"}]).updateRows
      (fun _ => [[("a", JSValue.other), ("b", JSValue.undef)]])) ∧
    validCells ({ columns := [{key := "a", label := "", isContinuous := true}],
                  rows := [[("a", JSValue.num 1)]] } : ChartData) :=
  ⟨(c10_cells_always_valid [[("a", JSValue.num 1)]] [{key := "a"}] "a" "a" 0 0
      (fun _ => [[("a", JSValue.other), ("b", JSValue.undef)]]) id).2.1,
   (c10_cells_always_valid [[("a", JSValue.num 1)]] [{key := "a"}] "a" "a" 0 0
      (fun _ => [[("a", JSValue.other), ("b", JSValue.undef)]]) id).2.2.2.1
      { columns := [{key := "a", label := "", isContinuous := true}],
        rows := [[("a", JSValue.num 1)]] } (by decide)⟩

/-! ### Claim C8 -/

theorem filterMap_length_of_isSome {α β : Type} (f : α → Option β) (l : List α)
    (h : ∀ x ∈ l, (f x).isSome = true) : (l.filterMap f).length = l.length := by
  induction l with
  | nil => rfl
  | cons x t ih =>
    have hx := h x (by simp)
    cases hf : f x with
    | none => rw [hf] at hx; cases hx
    | some b =>
      rw [List.filterMap_cons, hf]
      simp only [List.length_cons]
      rw [ih (fun y hy => h y (by simp [hy]))]

theorem filterMap_get?_of_isSome {α β : Type} (f : α → Option β) (l : List α)
    (h : ∀ x ∈ l, (f x).isSome = true) :
    ∀ i : ℕ, (l.filterMap f).get? i = (l.get? i).bind f := by
  induction l with
  | nil => intro i; simp
  | cons x t ih =>
    intro i
    have hx := h x (by simp)
    cases hf : f x with
    | none => rw [hf] at hx; cases hx
    | some b =>
      rw [List.filterMap_cons, hf]
      cases i with
      | zero => simp [hf]
      | succ m =>
        simp only [List.get?_cons_succ]
        exact ih (fun y hy => h y (by simp [hy])) m

theorem get?_isSome_of_lt {α : Type} (g : List α) (i : ℕ) (h : i < g.length) :
    (g.get? i).isSome = true := by
  rw [List.get?_eq_getElem?, List.getElem?_eq_getElem h]
  rfl

/-- Claim C8 (the Series layer is modelled from the spec, its behavior
pinned by `Series-test.js`): for a series of `g` groups of length `n`
and a mapper returning `g` values, `mapPoints` produces `g` groups of
length `n`, the slice passed for point-index `i` is the `i`-th point of
every group in group order, and group `j`'s point at index `i` in the
result is the `j`-th element of the mapper's result for index `i`. -/
theorem c8_mapPoints_spec {α : Type} (s : Series α) (fn : List α → ℕ → List α)
    (n : ℕ) (hlen : ∀ g ∈ s.groups, g.length = n)
    (hfn : ∀ pts i, (fn pts i).length = s.groups.length) :
    (s.mapPoints fn).groups.length = s.groups.length ∧
    (∀ g ∈ (s.mapPoints fn).groups, g.length = n) ∧
    (∀ i, i < n → (s.getPoint i).length = s.groups.length) ∧
    (∀ i j, i < n → j < s.groups.length →
      (s.getPoint i).get? j = (s.groups.get? j).bind (fun g => g.get? i)) ∧
    (∀ i j, i < n → j < s.groups.length →
      ((s.mapPoints fn).groups.get? j).bind (fun g => g.get? i) =
        (fn (s.getPoint i) i).get? j) := by
  have hsome : ∀ i, i < n → ∀ g ∈ s.groups, (g.get? i).isSome = true := by
    intro i hi g hg
    exact get?_isSome_of_lt g i (by rw [hlen g hg]; exact hi)
  have hn0 : s.groups ≠ [] →
      ((s.groups.head?.map List.length).getD 0) = n := by
    intro hne
    rw [List.head?_eq_head hne]
    exact hlen _ (List.head_mem hne)
  refine ⟨mapPoints_groups_length s fn, ?_, ?_, ?_, ?_⟩
  · intro g hg
    unfold Series.mapPoints at hg
    obtain ⟨j, hj, hform⟩ := List.mem_map.mp hg
    rw [List.mem_range] at hj
    have hne : s.groups ≠ [] := by
      intro hnil
      rw [hnil] at hj
      exact Nat.not_lt_zero j hj
    rw [← hform]
    rw [filterMap_length_of_isSome]
    · simp only [List.length_map, List.length_range]
      exact hn0 hne
    · intro r hr
      obtain ⟨i, _, hri⟩ := List.mem_map.mp hr
      rw [← hri]
      apply get?_isSome_of_lt
      rw [hfn]
      exact hj
  · intro i hi
    unfold Series.getPoint
    exact filterMap_length_of_isSome _ _ (hsome i hi)
  · intro i j hi hj
    unfold Series.getPoint
    exact filterMap_get?_of_isSome _ _ (hsome i hi) j
  · intro i j hi hj
    have hne : s.groups ≠ [] := by
      intro hnil
      rw [hnil] at hj
      exact Nat.not_lt_zero j hj
    unfold Series.mapPoints
    rw [List.get?_eq_getElem?, List.getElem?_map, List.getElem?_range hj]
    simp only [Option.map_some', Option.some_bind]
    rw [filterMap_get?_of_isSome]
    · rw [List.get?_eq_getElem?, List.getElem?_map, List.getElem?_range
        (by rw [hn0 hne]; exact hi)]
      rfl
    · intro r hr
      obtain ⟨i2, _, hri⟩ := List.mem_map.mp hr
      rw [← hri]
      apply get?_isSome_of_lt
      rw [hfn]
      exact hj

/-- Claim C8, witness: the test-file series `[[1,2,3],[4,5,6]]` with a
mapper returning the slice sum and the index. -/
theorem c8_witness :
    ((({ groups := [[1, 2, 3], [4, 5, 6]] } : Series ℕ).mapPoints
        (fun pts i => [pts.foldl (fun a b => a + b) 0, i])).groups.get? 0).bind
      (fun g => g.get? 1) =
      ([(({ groups := [[1, 2, 3], [4, 5, 6]] } : Series ℕ).getPoint 1).foldl
          (fun a b => a + b) 0, 1].get? 0) := by
  have h := c8_mapPoints_spec ({ groups := [[1, 2, 3], [4, 5, 6]] } : Series ℕ)
    (fun pts i => [pts.foldl (fun a b => a + b) 0, i]) 3
    (by decide) (fun pts i => rfl)
  exact h.2.2.2.2 1 0 (by decide) (by decide)

/-! ### Claim C3 -/

theorem head?_filter_eq_find? {α : Type} (q : α → Bool) (l : List α) :
    (l.filter q).head? = l.find? q := by
  induction l with
  | nil => rfl
  | cons x t ih =>
    by_cases hq : q x = true
    · rw [List.filter_cons, if_pos hq, List.find?_cons_of_pos _ hq]
      rfl
    · rw [List.filter_cons, if_neg hq, List.find?_cons_of_neg _ hq]
      exact ih

theorem mapGet_keyMap {β γ : Type} [DecidableEq β] (keys : List β) (h : β → γ)
    (k : β) (hmem : k ∈ keys) (hnd : keys.Nodup) :
    mapGet (keys.map (fun k2 => (k2, h k2))) k = some (h k) := by
  have := mapGet_of_mem_nodup (keys.map (fun k2 => (k2, h k2))) (k, h k)
    (List.mem_map.mpr ⟨k, hmem, rfl⟩) ?nd
  · exact this
  case nd =>
    rw [List.map_map]
    have he : (Prod.fst ∘ fun k2 : β => (k2, h k2)) = id := rfl
    rw [he, List.map_id]
    exact hnd

theorem mapGet_keyMap_none {β γ : Type} [DecidableEq β] (keys : List β)
    (h : β → γ) (k : β) (hmem : k ∉ keys) :
    mapGet (keys.map (fun k2 => (k2, h k2))) k = none := by
  unfold mapGet
  rw [List.find?_eq_none.mpr]
  · rfl
  · intro kv hkv
    obtain ⟨k2, hk2, hform⟩ := List.mem_map.mp hkv
    rw [← hform]
    simp only [decide_eq_true_eq]
    exact fun he => hmem (he ▸ hk2)

theorem getRowFromFrame_eq_find (l : List ChartRow) (p : String) (pv : JSValue) :
    ChartData.getRowFromFrame (groupByJS (fun r => rowGet r p) l) pv =
      l.find? (fun r => rowGet r p = pv) := by
  unfold ChartData.getRowFromFrame groupByJS
  by_cases hmem : pv ∈ l.map (fun r => rowGet r p)
  · rw [mapGet_keyMap _ _ _ ((firstDedup_mem _ _).mpr hmem) (firstDedup_nodup _)]
    exact head?_filter_eq_find? _ l
  · rw [mapGet_keyMap_none _ _ _ (fun hc => hmem ((firstDedup_mem _ _).mp hc))]
    rw [eq_comm, List.find?_eq_none]
    intro r hr
    simp only [decide_eq_true_eq]
    exact fun hrp => hmem (List.mem_map.mpr ⟨r, hr, hrp⟩)

/-- Claim C3, counterexample: column `v` is declared, non-continuous and
absent from the frame-0 row; the claim says the interpolated row carries
the frame-0 row's value there (absent, i.e. `undefined`), but the
constructed store sanitizes the cell to `null`. -/
theorem c3_counterexample :
    interpRowsOf ((ChartData.make
        [[("day", JSValue.num 1), ("p", JSValue.num 1)],
         [("day", JSValue.num 2), ("p", JSValue.num 1), ("v", JSValue.str "x")]]
        [{key := "day"}, {key := "p"}, {key := "v"}]).frameAtIndexInterpolated
          "day" "p" (mkRat 1 2)) =
      some [[("day", JSValue.num (mkRat 3 2)), ("p", JSValue.num 1),
             ("v", JSValue.null)]] ∧
    rowGet [("day", JSValue.num 1), ("p", JSValue.num 1)] "v" = JSValue.undef ∧
    JSValue.null ≠ JSValue.undef := by
  refine ⟨by decide, rfl, by decide⟩

/-- Claim C3, amended: for distinct declared columns and a non-integral
in-range index with `a = floor(index)` and `blend = index − a`,
`frameAtIndexInterpolated` returns a store with exactly one row per
distinct `primaryColumn` value of the whole data set having a matching
row in both frame `a` and frame `a+1` (first match of each frame wins;
unmatched values are dropped); in that row each declared column carries
the sanitized value of `lerp(valueA, valueB, blend)` when the column is
continuous and not the primary column, and the sanitized frame-`a` value
otherwise (a column absent from the frame-`a` row therefore reads
`null`, not `undefined`). -/
theorem c3_interpolated_frame (raws : List ChartRow)
    (defs : List ChartColumnDefinition) (f p : String) (index : ℚ)
    (hf : (ChartData.make raws defs).hasColumn f = true)
    (hp : (ChartData.make raws defs).hasColumn p = true)
    (hne : f ≠ p)
    (hnint : ((jsRound index : ℤ) : ℚ) ≠ index)
    (hpos : 0 ≤ index)
    (hrange : index <
      ((ChartData.framesOf (ChartData.make raws defs).rows f).length : ℚ) - 1) :
    ∃ store,
      (ChartData.make raws defs).frameAtIndexInterpolated f p index =
        .ok (some store) ∧
      store.rows =
        (firstDedup ((ChartData.make raws defs).rows.map
            (fun r => rowGet r p))).filterMap (fun pv =>
          match
            ((ChartData.framesOf (ChartData.make raws defs).rows f).getD
              (jsFloor index).toNat []).find? (fun r => rowGet r p = pv),
            ((ChartData.framesOf (ChartData.make raws defs).rows f).getD
              ((jsFloor index).toNat + 1) []).find? (fun r => rowGet r p = pv)
          with
          | some rowA, some rowB =>
              some ((ChartData.make raws defs).columns.map (fun c =>
                (c.key, ChartData.sanitizeCell
                  (if c.isContinuous && c.key ≠ p
                   then ChartData.lerp (rowGet rowA c.key) (rowGet rowB c.key)
                     (ratSub index ((jsFloor index : ℤ) : ℚ))
                   else rowGet rowA c.key))))
          | _, _ => none) := by
  have e1 : (ChartData.make raws defs).columnError f = false := by
    unfold ChartData.columnError
    rw [hf]
    rfl
  have e2 : (ChartData.make raws defs).columnError p = false := by
    unfold ChartData.columnError
    rw [hp]
    rfl
  have e3 : ChartData.indexError index none false = false := by
    unfold ChartData.indexError
    rw [if_neg (not_lt.mpr hpos)]
    rfl
  have e4 : ChartData.indexError index
      (some (ratSub (((ChartData.framesOf (ChartData.make raws defs).rows
        f).length : ℚ)) 1)) false = false := by
    unfold ChartData.indexError
    rw [if_neg (not_lt.mpr hpos)]
    have hgt : decide (index > ratSub
        (((ChartData.framesOf (ChartData.make raws defs).rows f).length : ℚ))
        1) = false := by
      rw [ratSub_eq]
      exact decide_eq_false (not_lt.mpr (le_of_lt hrange))
    simp only [hgt, Bool.and_false, Bool.false_and, Bool.false_eq_true,
      if_false]
  have hfl0 : 0 ≤ jsFloor index := by
    rw [jsFloor_eq_floor]
    exact Int.floor_nonneg.mpr hpos
  have hflq : ((jsFloor index : ℤ) : ℚ) ≤ index := by
    rw [jsFloor_eq_floor]
    exact Int.floor_le index
  have hfl1 : jsFloor index <
      ((ChartData.framesOf (ChartData.make raws defs).rows f).length : ℤ) - 1 := by
    have hq : ((jsFloor index : ℤ) : ℚ) <
        ((ChartData.framesOf (ChartData.make raws defs).rows f).length : ℚ) - 1 :=
      lt_of_le_of_lt hflq hrange
    exact_mod_cast hq
  have h1 : (jsFloor index).toNat <
      (ChartData.framesOf (ChartData.make raws defs).rows f).length := by
    omega
  have h2 : (jsFloor index).toNat + 1 <
      (ChartData.framesOf (ChartData.make raws defs).rows f).length := by
    omega
  have hceilnat : (jsCeil index).toNat = (jsFloor index).toNat + 1 := by
    have hni := floor_ne_of_round_ne index hnint
    have hc := jsCeil_of_not_int index hni
    omega
  have hfa : (ChartData.framesOf (ChartData.make raws defs).rows f).get?
      (jsFloor index).toNat =
      some ((ChartData.framesOf (ChartData.make raws defs).rows f).getD
        (jsFloor index).toNat []) := by
    rw [List.get?_eq_getElem?, List.getElem?_eq_getElem h1,
      List.getD_eq_getElem _ _ h1]
  have hfb : (ChartData.framesOf (ChartData.make raws defs).rows f).get?
      ((jsFloor index).toNat + 1) =
      some ((ChartData.framesOf (ChartData.make raws defs).rows f).getD
        ((jsFloor index).toNat + 1) []) := by
    rw [List.get?_eq_getElem?, List.getElem?_eq_getElem h2,
      List.getD_eq_getElem _ _ h2]
  have hne' : (f = p) = False := eq_false hne
  have hnint' : (((jsRound index : ℤ) : ℚ) = index) = False := eq_false hnint
  unfold ChartData.frameAtIndexInterpolated
  simp only [e1, e2, e3, Bool.or_self, Bool.or_false, Bool.false_or,
    Bool.false_eq_true, if_false, hne', hnint', e4, hceilnat, hfa, hfb]
  refine ⟨_, rfl, ?_⟩
  have hndc : (((ChartData.make raws defs).columns).map ChartColumn.key).Nodup :=
    ChartData.make_columns_keys_nodup raws defs
  have hrec : ∀ (rows2 : List ChartRow) (cols2 : List ChartColumn),
      (ChartData.reconstruct rows2 cols2).rows =
        rows2.map (fun r => (r.foldl (fun m kv => mapSet m kv.1 kv.2) []).map
          (fun kv => (kv.1, ChartData.sanitizeCell kv.2))) :=
    fun _ _ => rfl
  rw [hrec]
  rw [List.filterMap_map, Function.id_comp, List.map_filterMap]
  apply List.filterMap_congr
  intro pv _
  rw [getRowFromFrame_eq_find, getRowFromFrame_eq_find]
  cases hA : ((ChartData.framesOf (ChartData.make raws defs).rows f).getD
      (jsFloor index).toNat []).find? (fun r => rowGet r p = pv) with
  | none => rfl
  | some rowA =>
    cases hB : ((ChartData.framesOf (ChartData.make raws defs).rows f).getD
        ((jsFloor index).toNat + 1) []).find? (fun r => rowGet r p = pv) with
    | none => rfl
    | some rowB =>
      simp only [Option.map_some']
      congr 1
      rw [foldl_mapSet_fresh ChartColumn.key
        (fun c => if c.isContinuous && c.key ≠ p
          then ChartData.lerp (rowGet rowA c.key) (rowGet rowB c.key)
            (ratSub index ((jsFloor index : ℤ) : ℚ))
          else rowGet rowA c.key)
        (ChartData.make raws defs).columns [] (by simp) hndc]
      rw [List.nil_append]
      rw [foldl_mapSet_eq_self]
      · rw [List.map_map]
        rfl
      · rw [List.map_map]
        have he : (Prod.fst ∘ fun c : ChartColumn =>
            (c.key, if c.isContinuous && c.key ≠ p
              then ChartData.lerp (rowGet rowA c.key) (rowGet rowB c.key)
                (ratSub index ((jsFloor index : ℤ) : ℚ))
              else rowGet rowA c.key)) = ChartColumn.key := rfl
        rw [he]
        exact hndc

/-- Claim C3, witness: the doc-comment example store (days 1 and 2,
prices 10 and 20) at index 1/2; both rows interpolate. -/
theorem c3_witness :
    interpRowsOf ((ChartData.make
        [[("day", JSValue.num 1), ("price", JSValue.num 10), ("amount", JSValue.num 2)],
         [("day", JSValue.num 1), ("price", JSValue.num 20), ("amount", JSValue.num 40)],
         [("day", JSValue.num 2), ("price", JSValue.num 10), ("amount", JSValue.num 4)],
         [("day", JSValue.num 2), ("price", JSValue.num 20), ("amount", JSValue.num 30)]]
        [{key := "day"}, {key := "price"}, {key := "amount"}]).frameAtIndexInterpolated
          "day" "price" (mkRat 1 2)) =
      some [[("day", JSValue.num (mkRat 3 2)), ("price", JSValue.num 10),
             ("amount", JSValue.num 3)],
            [("day", JSValue.num (mkRat 3 2)), ("price", JSValue.num 20),
             ("amount", JSValue.num 35)]] := by
  obtain ⟨st, h1, h2⟩ := c3_interpolated_frame
    [[("day", JSValue.num 1), ("price", JSValue.num 10), ("amount", JSValue.num 2)],
     [("day", JSValue.num 1), ("price", JSValue.num 20), ("amount", JSValue.num 40)],
     [("day", JSValue.num 2), ("price", JSValue.num 10), ("amount", JSValue.num 4)],
     [("day", JSValue.num 2), ("price", JSValue.num 20), ("amount", JSValue.num 30)]]
    [{key := "day"}, {key := "price"}, {key := "amount"}] "day" "price"
    (mkRat 1 2) (by decide) (by decide) (by decide) (by decide) (by decide)
    (by rw [show (ChartData.framesOf (ChartData.make
        [[("day", JSValue.num 1), ("price", JSValue.num 10), ("amount", JSValue.num 2)],
         [("day", JSValue.num 1), ("price", JSValue.num 20), ("amount", JSValue.num 40)],
         [("day", JSValue.num 2), ("price", JSValue.num 10), ("amount", JSValue.num 4)],
         [("day", JSValue.num 2), ("price", JSValue.num 20), ("amount", JSValue.num 30)]]
        [{key := "day"}, {key := "price"}, {key := "amount"}]).rows "day").length = 2
          from by decide, Rat.mkRat_eq_div]
        norm_num)
  rw [h1]
  have hproj : interpRowsOf (.ok (some st)) = some st.rows := rfl
  rw [hproj, h2]
  decide

/-! ### Claim C7 -/

theorem foldl_mapSet_keys_of_mem {κ α β : Type} [DecidableEq κ]
    (key : β → κ) (val : β → α) (l : List β) :
    ∀ m0 : List (κ × α), (∀ b ∈ l, key b ∈ m0.map Prod.fst) →
      (l.foldl (fun m b => mapSet m (key b) (val b)) m0).map Prod.fst =
        m0.map Prod.fst := by
  induction l with
  | nil => intro m0 _; rfl
  | cons b t ih =>
    intro m0 h
    simp only [List.foldl_cons]
    have hkeys : (mapSet m0 (key b) (val b)).map Prod.fst = m0.map Prod.fst := by
      rw [mapSet_map_fst, if_pos (h b (by simp))]
    rw [ih (mapSet m0 (key b) (val b))
      (fun b2 hb2 => by rw [hkeys]; exact h b2 (by simp [hb2]))]
    exact hkeys

theorem mapGet_map_snd {κ α γ : Type} [DecidableEq κ] (m : List (κ × α))
    (h : α → γ) (k : κ) :
    mapGet (m.map (fun kv => (kv.1, h kv.2))) k = (mapGet m k).map h := by
  induction m with
  | nil => rfl
  | cons x t ih =>
    by_cases hx : x.1 = k
    · have hd : decide (((x.1, h x.2) : κ × γ).1 = k) = true := decide_eq_true hx
      have hd2 : decide (x.1 = k) = true := decide_eq_true hx
      unfold mapGet
      simp only [List.map_cons, List.find?_cons, hd, hd2]
      rfl
    · have hd : decide (((x.1, h x.2) : κ × γ).1 = k) = false := decide_eq_false hx
      have hd2 : decide (x.1 = k) = false := decide_eq_false hx
      unfold mapGet at ih ⊢
      simp only [List.map_cons, List.find?_cons, hd, hd2]
      exact ih

theorem baseGroupOf_keys (pk : String) (data : List Point) :
    (baseGroupOf pk data).map Prod.fst =
      firstDedup (data.map (fun it => (rowGet it pk).jsString)) := by
  unfold baseGroupOf
  exact foldl_mapSet_keys_firstDedup (fun it => (rowGet it pk).jsString)
    (fun it => [(pk, rowGet it pk)]) data

theorem baseGroupOf_keys_nodup (pk : String) (data : List Point) :
    ((baseGroupOf pk data).map Prod.fst).Nodup := by
  rw [baseGroupOf_keys]
  exact firstDedup_nodup _

theorem groupPointMap_keys (cfg : GSConfig) (group : List Point)
    (hgrp : ∀ item ∈ group, item ∈ cfg.data) :
    (groupPointMap cfg group).map Prod.fst =
      firstDedup (cfg.data.map (fun it => (rowGet it cfg.pointKey).jsString)) := by
  unfold groupPointMap
  have hmapkeys : ((baseGroupOf cfg.pointKey cfg.data).map
      (fun kv => (kv.1, objMerge (objMerge cfg.defaultPoint
        (baseValuesOf cfg.groupKey group)) kv.2))).map Prod.fst =
      firstDedup (cfg.data.map (fun it => (rowGet it cfg.pointKey).jsString)) := by
    rw [List.map_map]
    have he : (Prod.fst ∘ fun kv : String × Point =>
        (kv.1, objMerge (objMerge cfg.defaultPoint
          (baseValuesOf cfg.groupKey group)) kv.2)) = Prod.fst := rfl
    rw [he]
    exact baseGroupOf_keys cfg.pointKey cfg.data
  rw [foldl_mapSet_keys_of_mem]
  · exact hmapkeys
  · intro item hitem
    rw [hmapkeys, firstDedup_mem]
    exact List.mem_map.mpr ⟨item, hgrp item hitem, rfl⟩

theorem groupByJS_snd_subset {α β : Type} [DecidableEq β] (fn : α → β)
    (l : List α) (kg : β × List α) (h : kg ∈ groupByJS fn l) :
    ∀ x ∈ kg.2, x ∈ l := by
  unfold groupByJS at h
  obtain ⟨k, _, hform⟩ := List.mem_map.mp h
  rw [← hform]
  intro x hx
  exact (List.mem_filter.mp hx).1

theorem groupPointMap_get_missing (cfg : GSConfig) (group : List Point)
    (kv : String × Point) (hkv : kv ∈ baseGroupOf cfg.pointKey cfg.data)
    (hmiss : ∀ item ∈ group, (rowGet item cfg.pointKey).jsString ≠ kv.1) :
    mapGet (groupPointMap cfg group) kv.1 =
      some (objMerge (objMerge cfg.defaultPoint
        (baseValuesOf cfg.groupKey group)) kv.2) := by
  unfold groupPointMap
  rw [foldl_mapSet_get_of_absent (fun item => (rowGet item cfg.pointKey).jsString)
    (fun item => objMerge cfg.defaultPoint item) group kv.1 hmiss]
  rw [mapGet_map_snd]
  rw [mapGet_of_mem_nodup _ kv hkv (baseGroupOf_keys_nodup cfg.pointKey cfg.data)]
  rfl

theorem jsSortWith_perm {α : Type} (cmp : α → α → ℤ) (l : List α) :
    (jsSortWith cmp l).Perm l :=
  List.perm_insertionSort _ l

theorem jsSortWith_sorted {α : Type} (cmp : α → α → ℤ)
    (htrans : ∀ a b c, cmp a b ≤ 0 → cmp b c ≤ 0 → cmp a c ≤ 0)
    (htotal : ∀ a b, cmp a b ≤ 0 ∨ cmp b a ≤ 0) (l : List α) :
    (jsSortWith cmp l).Sorted (fun a b => cmp a b ≤ 0) := by
  unfold jsSortWith
  haveI : IsTotal α (fun a b => cmp a b ≤ 0) := ⟨htotal⟩
  haveI : IsTrans α (fun a b => cmp a b ≤ 0) := ⟨htrans⟩
  exact List.sorted_insertionSort _ l

/-- Claim C7, counterexample: first, with records whose `x` values `1`
(number) and `"1"` (string) are distinct but stringify identically, the
single output group has 1 point although the input has 2 distinct
`pointKey` values; second, with a group whose `t` (group-key) value is
the falsy `0`, the gap-filled point carries `t = undefined` — not the
group's group-key value — because the builder looks for the first record
with a truthy `t`. -/
theorem c7_counterexample :
    (mkGroupedSeries
      { groupKey := ["t"], pointKey := "x",
        data := [[("t", JSValue.str "a"), ("x", JSValue.num 1), ("v", JSValue.num 5)],
                 [("t", JSValue.str "a"), ("x", JSValue.str "1"), ("v", JSValue.num 6)]],
        defaultPoint := [("v", JSValue.num 0)] }).map
      (fun s => s.groups.map List.length) = some [1] ∧
    (firstDedup
      ([[("t", JSValue.str "a"), ("x", JSValue.num 1), ("v", JSValue.num 5)],
        [("t", JSValue.str "a"), ("x", JSValue.str "1"), ("v", JSValue.num 6)]].map
        (fun it => rowGet it "x"))).length = 2 ∧
    (mkGroupedSeries
      { groupKey := ["t"], pointKey := "x",
        data := [[("t", JSValue.num 0), ("x", JSValue.num 0), ("v", JSValue.num 1)],
                 [("t", JSValue.num 1), ("x", JSValue.num 1), ("v", JSValue.num 2)]],
        defaultPoint := [("v", JSValue.num 9)] }).map
      (fun s => s.groups.get? 0) =
      some (some [[("v", JSValue.num 1), ("t", JSValue.num 0), ("x", JSValue.num 0)],
                  [("v", JSValue.num 9), ("t", JSValue.undef), ("x", JSValue.num 1)]]) ∧
    JSValue.undef ≠ JSValue.num 0 := by
  refine ⟨by decide, by decide, by decide, by decide⟩

/-- Claim C7, amended: for a configuration whose `groupKey` does not
contain `pointKey` and whose comparator is transitive and total, the
builder succeeds and every output group has the same length — the
number of distinct *stringified* `pointKey` values of the whole input —
and is sorted by the comparator; each group is a permutation of one
synthesized point per canonical (stringified) `pointKey` value; and
where a group lacks a source record at a canonical value, the group
contains `defaultPoint` overlaid with the group's truthy-first group-key
field values and that canonical `pointKey` entry (whose raw value is the
last one seen for that string). -/
theorem c7_grouped_series_alignment (cfg : GSConfig)
    (hpk : cfg.groupKey.contains cfg.pointKey = false)
    (htrans : ∀ a b c : Point,
      (cfg.pointSort.getD (defaultPointSort cfg.pointKey)) a b ≤ 0 →
      (cfg.pointSort.getD (defaultPointSort cfg.pointKey)) b c ≤ 0 →
      (cfg.pointSort.getD (defaultPointSort cfg.pointKey)) a c ≤ 0)
    (htotal : ∀ a b : Point,
      (cfg.pointSort.getD (defaultPointSort cfg.pointKey)) a b ≤ 0 ∨
      (cfg.pointSort.getD (defaultPointSort cfg.pointKey)) b a ≤ 0) :
    ∃ s, mkGroupedSeries cfg = some s ∧
      (∀ g ∈ s.groups,
        g.length = (firstDedup (cfg.data.map
          (fun it => (rowGet it cfg.pointKey).jsString))).length ∧
        g.Sorted (fun a b =>
          (cfg.pointSort.getD (defaultPointSort cfg.pointKey)) a b ≤ 0)) ∧
      (∀ kg ∈ groupByJS (concatGroupKey cfg.groupKey) cfg.data,
        ∃ g ∈ s.groups,
          g.Perm ((groupPointMap cfg kg.2).map (fun kv => kv.2)) ∧
          (groupPointMap cfg kg.2).map (fun kv => kv.1) =
            firstDedup (cfg.data.map
              (fun it => (rowGet it cfg.pointKey).jsString)) ∧
          (∀ kv ∈ baseGroupOf cfg.pointKey cfg.data,
            (∀ item ∈ kg.2, (rowGet item cfg.pointKey).jsString ≠ kv.1) →
            objMerge (objMerge cfg.defaultPoint
              (baseValuesOf cfg.groupKey kg.2)) kv.2 ∈ g)) := by
  refine ⟨⟨(groupByJS (concatGroupKey cfg.groupKey) cfg.data).map
      (fun kg => jsSortWith (cfg.pointSort.getD (defaultPointSort cfg.pointKey))
        ((groupPointMap cfg kg.2).map (fun kv => kv.2))), {}⟩, ?_, ?_, ?_⟩
  · unfold mkGroupedSeries
    simp only [hpk, Bool.false_eq_true, if_false]
  · intro g hg
    obtain ⟨kg, hkg, hform⟩ := List.mem_map.mp hg
    constructor
    · rw [← hform]
      rw [(jsSortWith_perm _ _).length_eq, List.length_map]
      have hkeys := groupPointMap_keys cfg kg.2
        (groupByJS_snd_subset (concatGroupKey cfg.groupKey) cfg.data kg hkg)
      calc (groupPointMap cfg kg.2).length
          = ((groupPointMap cfg kg.2).map Prod.fst).length :=
            (List.length_map _ _).symm
        _ = _ := by rw [hkeys]
    · rw [← hform]
      exact jsSortWith_sorted _ htrans htotal _
  · intro kg hkg
    refine ⟨jsSortWith (cfg.pointSort.getD (defaultPointSort cfg.pointKey))
        ((groupPointMap cfg kg.2).map (fun kv => kv.2)),
      List.mem_map.mpr ⟨kg, hkg, rfl⟩,
      jsSortWith_perm _ _,
      groupPointMap_keys cfg kg.2
        (groupByJS_snd_subset (concatGroupKey cfg.groupKey) cfg.data kg hkg),
      ?_⟩
    intro kv hkv hmiss
    have hget := groupPointMap_get_missing cfg kg.2 kv hkv hmiss
    have hmem := mem_of_mapGet_eq_some _ _ _ hget
    have hmem2 : objMerge (objMerge cfg.defaultPoint
        (baseValuesOf cfg.groupKey kg.2)) kv.2 ∈
        (groupPointMap cfg kg.2).map (fun kv => kv.2) :=
      List.mem_map.mpr ⟨(kv.1, objMerge (objMerge cfg.defaultPoint
        (baseValuesOf cfg.groupKey kg.2)) kv.2), hmem, rfl⟩
    exact ((jsSortWith_perm _ _).mem_iff).mpr hmem2

/-- Claim C7, witness: the test-file data set (groups `foo` and `bar`,
`bar` missing its points at x = 1 and x = 2), with a constant (hence
transitive and total) comparator: both groups come out with the three
canonical points. -/
theorem c7_witness :
    ∃ s, mkGroupedSeries
      { groupKey := ["type"], pointKey := "x",
        pointSort := some (fun _ _ => 0),
        data := [[("type", JSValue.str "foo"), ("x", JSValue.num 0), ("value", JSValue.num 1)],
                 [("type", JSValue.str "foo"), ("x", JSValue.num 1), ("value", JSValue.num 1)],
                 [("type", JSValue.str "foo"), ("x", JSValue.num 2), ("value", JSValue.num 1)],
                 [("type", JSValue.str "bar"), ("x", JSValue.num 0), ("value", JSValue.num 2)]],
        defaultPoint := [("value", JSValue.num 0)] } = some s ∧
      ∀ g ∈ s.groups, g.length = 3 := by
  obtain ⟨s, hs, hA, _⟩ := c7_grouped_series_alignment
    { groupKey := ["type"], pointKey := "x",
      pointSort := some (fun _ _ => 0),
      data := [[("type", JSValue.str "foo"), ("x", JSValue.num 0), ("value", JSValue.num 1)],
               [("type", JSValue.str "foo"), ("x", JSValue.num 1), ("value", JSValue.num 1)],
               [("type", JSValue.str "foo"), ("x", JSValue.num 2), ("value", JSValue.num 1)],
               [("type", JSValue.str "bar"), ("x", JSValue.num 0), ("value", JSValue.num 2)]],
      defaultPoint := [("value", JSValue.num 0)] }
    (by decide)
    (fun a b c h1 h2 => h1)
    (fun a b => Or.inl (le_refl 0))
  refine ⟨s, hs, ?_⟩
  intro g hg
  rw [(hA g hg).1]
  decide
